import Mathlib

set_option maxHeartbeats 1000000
set_option maxRecDepth 100000

/-!
Verification development for the BioCypher batch export engine.

The repository ships the tests of the batch writer (`src/test/test_write.py`),
the graph driver (`src/biocypher/driver.py`) and the translation helpers
(`src/biocypher/translate.py`).  The batch writer itself (`biocypher/_write.py`,
class `BatchWriter`) is not part of the sources that were provided, so the
definitions below model it from the specification (`spec.md`, sections 3, 4, 6
and 7), with the observable details that the specification leaves open pinned
by the in-repository tests in `src/test/test_write.py`.
-/

/-! ## Association lists -/

/-- Association-list lookup keyed by decidable equality. -/
def alookup {κ β : Type} [DecidableEq κ] : List (κ × β) → κ → Option β
  | [], _ => none
  | p :: r, k => if p.1 = k then some p.2 else alookup r k

/-- Association-list update: replaces the binding of `k` when present,
otherwise appends it at the end. -/
def aset {κ β : Type} [DecidableEq κ] : List (κ × β) → κ → β → List (κ × β)
  | [], k, v => [(k, v)]
  | p :: r, k, v => if p.1 = k then (k, v) :: r else p :: aset r k v

/-- Appends a string to a list unless it is already present; used for the
duplicate-report collections and the first-write bucket orderings. -/
def insertNew (l : List String) (s : String) : List String :=
  if s ∈ l then l else l ++ [s]

/-! ## Typed property values

Modelled from the spec: section 3 declares the typed value of a property as
one of absent/null, integer, float, string, or an ordered sequence of
strings, and section 9 asks for a closed value variant checked at the
boundary.  A float is carried as its decimal rendering, because the engine
only ever uses the decimal text of a float (spec section 4.1). -/

inductive PropValue where
  | vnone
  | vint (i : Int)
  | vfloat (txt : String)
  | vstr (s : String)
  | varr (elems : List String)
deriving DecidableEq

/-- Declared value kinds of the property schema (spec section 2, Property
Schema collaborator: integer, float, string, string-array). -/
inductive PKind where
  | kint
  | kfloat
  | kstr
  | kstrArr
deriving DecidableEq

/-- The kind under which a runtime value is reported when a bucket's
reference properties are taken from its first record rather than from the
declared schema. -/
def kindOf : PropValue → PKind
  | .vnone => .kstr
  | .vint _ => .kint
  | .vfloat _ => .kfloat
  | .vstr _ => .kstr
  | .varr _ => .kstrArr

/-- Header-cell type suffix per declared kind (spec section 4.1:
`name` plain, `name:long` integer, `name:double` float, `name:string[]`
array). -/
def typeSuffix : PKind → String
  | .kint => ":long"
  | .kfloat => ":double"
  | .kstr => ""
  | .kstrArr => ":string[]"

/-! ## Entities (spec section 3, mirroring `biocypher/_create.py` as used by
the tests) -/

/-- A node handed to the writer: identifier, leaf type name, preferred-id
namespace tag (defaulting to the sentinel "id"), and the property mapping. -/
structure BioCypherNode where
  node_id : String
  node_label : String
  preferred_id : String := "id"
  properties : List (String × PropValue) := []
deriving DecidableEq

/-- An edge handed to the writer: source and target identifiers, the graph
relationship label that is written to the `:TYPE` column, the input
relationship label used only for duplicate bookkeeping, and the property
mapping. -/
structure BioCypherEdge where
  source_id : String
  target_id : String
  graph_db_relationship_label : String
  input_relationship_label : String
  properties : List (String × PropValue) := []
deriving DecidableEq

/-- A relationship reified as a node plus its two connecting edges
(spec section 3; produced by `gen_translate_edges` in
`src/biocypher/translate.py` for types represented as nodes). -/
structure BioCypherRelAsNode where
  node : BioCypherNode
  source_edge : BioCypherEdge
  target_edge : BioCypherEdge
deriving DecidableEq

/-- One item of the stream accepted by `write_edges`: either a plain edge or
a relationship-as-node triple. -/
inductive EdgeStreamItem where
  | edge (e : BioCypherEdge)
  | relAsNode (r : BioCypherRelAsNode)
deriving DecidableEq

/-! ## External collaborators and configuration -/

/-- Modelled from the spec: the external collaborators of the export engine
(section 2): the Property Schema supplies, per entity type, the declared
ordered properties and their kinds; the Ontology Label Resolver supplies the
ancestor class names of a leaf type; and the translation layer supplies the
deterministic file-name stem of a bucket (spec section 4.2 names files from
"the bucket's type name").  For node buckets the stem may depend on whether
the opening record carried any properties: the tests pin that a
property-less `microRNA` node is written under the raw input label while
property-carrying nodes are written under the translated pascal-case name
(`test_write_node_data_from_gen_no_props`). -/
structure SchemaEnv where
  nodeProperties : String → Option (List (String × PKind))
  edgeProperties : String → Option (List (String × PKind))
  nodeFileStem : String → Bool → String
  edgeFileStem : String → String → String
  ancestry : String → List String

/-- Engine-wide configuration (spec section 6): field delimiter,
array-element delimiter, quote character, output directory, database name,
and the strict-mode flag. -/
structure WriterConfig where
  delimiter : String
  array_delimiter : String
  quote : String
  dirname : String
  db_name : String := "neo4j"
  strict_mode : Bool := false
deriving DecidableEq

/-! ## Output files -/

/-- The files of the output directory, identified structurally: one header
file per bucket stem, numbered part files per bucket stem, and the import
call script. -/
inductive FileKey where
  | header (stem : String)
  | part (stem : String) (idx : Nat)
  | importScript
deriving DecidableEq

structure BatchWriterState where
  files : List (FileKey × String) := []
  node_part_index : List (String × Nat) := []
  edge_part_index : List (String × Nat) := []
  node_order : List String := []
  edge_order : List String := []
  seen_node_ids : List (String × String) := []
  seen_edge_ids : List (String × String) := []
  duplicate_node_types : List String := []
  duplicate_node_ids : List String := []
  duplicate_edge_types : List String := []
  duplicate_edge_ids : List String := []
deriving DecidableEq

/-- A freshly constructed engine instance (spec section 3: duplicate sets and
cursors are reset only when a fresh engine instance is created). -/
def initialState : BatchWriterState := {}

/-! ## The type encoder (spec section 4.1) -/

/-- Wraps a cell in the configured quote character. -/
def quoteWrap (q s : String) : String := q ++ s ++ q

/-- Unquoted text of a value: decimal text for numbers, raw text for strings,
elements joined with the array delimiter for arrays. -/
def plainText (ad : String) : PropValue → String
  | .vnone => ""
  | .vint i => toString i
  | .vfloat t => t
  | .vstr s => s
  | .varr l => String.intercalate ad l

/-- Node data cell for one value.  Modelled from the spec (section 4.1):
integers and floats render as decimal text unquoted, strings render wrapped
in the configured quote character, arrays render as one quote-wrapped cell of
elements joined by the array delimiter.  Absent/null values render as a plain
empty cell for every column kind, as pinned by
`test_write_none_type_property_and_order_invariance` (the spec text instead
claims a quoted-empty cell for string-typed columns). -/
def renderNodeValue (q ad : String) : PropValue → String
  | .vnone => ""
  | .vint i => toString i
  | .vfloat t => t
  | .vstr s => quoteWrap q s
  | .varr l => quoteWrap q (String.intercalate ad l)

/-- Edge data cell for one value.  Pinned by `test_write_edge_data_from_gen`:
every present edge property value is quote-wrapped, integers included
(`level` 4 renders as a quoted `4`); absent values render empty. -/
def renderEdgeValue (q ad : String) : PropValue → String
  | .vnone => ""
  | v => quoteWrap q (plainText ad v)

/-- Value of property `k` in an entity's mapping, absent when unmapped. -/
def lookupValue (props : List (String × PropValue)) (k : String) : PropValue :=
  (alookup props k).getD .vnone

/-- The three fixed strict-mode property keys (spec section 4.1). -/
def strictKeys : List String := ["source", "version", "licence"]

/-- The keys an entity of a bucket must carry: the bucket's reference keys
plus, in strict mode, the three fixed strict-mode keys (spec section 4.1). -/
def requiredKeys (C : WriterConfig) (ref : List (String × PKind)) : List String :=
  ref.map (fun p => p.1) ++ (if C.strict_mode then strictKeys else [])

/-- Order-invariant comparison of two key sets (spec section 4.1: the set of
property keys present must exactly match the declared keys). -/
def keysMatch (a b : List String) : Bool :=
  a.all (fun k => decide (k ∈ b)) && b.all (fun k => decide (k ∈ a))

/-- Conformance check of one node against a bucket's reference properties
(spec section 4.1).  A node with a completely empty property mapping takes
the property-less path and bypasses the key-set check outside strict mode
(pinned by `test_write_node_data_from_gen_no_props`: such records succeed
even when their type declares schema properties); in strict mode the three
fixed keys are still required, so an empty mapping fails. -/
def nodeConforms (C : WriterConfig) (ref : List (String × PKind))
    (n : BioCypherNode) : Bool :=
  if n.properties.isEmpty && !C.strict_mode then true
  else keysMatch (n.properties.map (fun p => p.1)) (requiredKeys C ref)

/-- Conformance check of one edge against a bucket's reference properties. -/
def edgeConforms (ref : List (String × PKind)) (e : BioCypherEdge) : Bool :=
  keysMatch (e.properties.map (fun p => p.1)) (ref.map (fun p => p.1))

/-- Sorts class names lexicographically (spec section 4.4: the combined
ancestry is sorted before being joined). -/
def sortStrings (l : List String) : List String :=
  l.insertionSort (fun a b => a ≤ b)

/-- The `:LABEL` cell of a node row: the sorted ancestry of its leaf type
joined with the fixed separator (spec section 4.4). -/
def labelCellOf (E : SchemaEnv) (label : String) : String :=
  String.intercalate "|" (sortStrings (E.ancestry label))

/-- The data cells of one node row, in column order: identifier, one cell per
reference property in declared order, the quoted identifier and preferred-id
cells, in strict mode the three fixed cells, and the label cell (spec
sections 4.1 and 4.4; strict-mode position pinned by `test_write_strict`). -/
def nodeCells (C : WriterConfig) (E : SchemaEnv) (ref : List (String × PKind))
    (n : BioCypherNode) : List String :=
  [n.node_id]
    ++ ref.map (fun p => renderNodeValue C.quote C.array_delimiter (lookupValue n.properties p.1))
    ++ [quoteWrap C.quote n.node_id, quoteWrap C.quote n.preferred_id]
    ++ (if C.strict_mode then
          strictKeys.map (fun k => renderNodeValue C.quote C.array_delimiter (lookupValue n.properties k))
        else [])
    ++ [labelCellOf E n.node_label]

/-- One node row: the cells joined by the field delimiter, newline
terminated. -/
def nodeRow (C : WriterConfig) (E : SchemaEnv) (ref : List (String × PKind))
    (n : BioCypherNode) : String :=
  String.intercalate C.delimiter (nodeCells C E ref n) ++ "\n"

/-- The header cells of a node bucket: `:ID`, the declared properties with
their type suffixes, `id`, `preferred_id`, in strict mode the three fixed
columns, and `:LABEL` (spec section 4.1; concrete layout pinned by
`test_write_node_data_headers_import_call`). -/
def nodeHeaderCells (C : WriterConfig) (ref : List (String × PKind)) : List String :=
  [":ID"]
    ++ ref.map (fun p => p.1 ++ typeSuffix p.2)
    ++ ["id", "preferred_id"]
    ++ (if C.strict_mode then strictKeys else [])
    ++ [":LABEL"]

/-- A node bucket's header line. -/
def nodeHeaderLine (C : WriterConfig) (ref : List (String × PKind)) : String :=
  String.intercalate C.delimiter (nodeHeaderCells C ref)

/-- The data cells of one edge row: source identifier, one cell per reference
property, target identifier, and the graph relationship label (layout pinned
by `test_write_edge_data_headers_import_call`). -/
def edgeCells (C : WriterConfig) (ref : List (String × PKind))
    (e : BioCypherEdge) : List String :=
  [e.source_id]
    ++ ref.map (fun p => renderEdgeValue C.quote C.array_delimiter (lookupValue e.properties p.1))
    ++ [e.target_id, e.graph_db_relationship_label]

/-- One edge row, newline terminated. -/
def edgeRow (C : WriterConfig) (ref : List (String × PKind))
    (e : BioCypherEdge) : String :=
  String.intercalate C.delimiter (edgeCells C ref e) ++ "\n"

/-- The header cells of an edge bucket: `:START_ID`, the properties with type
suffixes, `:END_ID`, `:TYPE` (spec section 4.1). -/
def edgeHeaderCells (C : WriterConfig) (ref : List (String × PKind)) : List String :=
  [":START_ID"]
    ++ ref.map (fun p => p.1 ++ typeSuffix p.2)
    ++ [":END_ID", ":TYPE"]

/-- An edge bucket's header line. -/
def edgeHeaderLine (C : WriterConfig) (ref : List (String × PKind)) : String :=
  String.intercalate C.delimiter (edgeHeaderCells C ref)

/-! ## The record batcher (spec section 4.2)

Modelled from the spec: records accumulate per bucket; a bucket's buffer is
flushed into the next numbered part file when it reaches `batch_size` rows
and, for its remainder, when the input stream is exhausted, so that no part
file exceeds `batch_size` rows and no trailing empty part file is created.
The whole buffered slice is validated before any of its rows is written
(pinned by `test_not_enough_properties`: a valid record buffered before an
invalid one of the same type leaves no part file). -/

/-- The in-flight buffer of one node bucket: its raw label key, its file-name
stem, its reference properties, and the buffered records. -/
structure NodeBin where
  label : String
  stem : String
  refProps : List (String × PKind)
  buf : List BioCypherNode
deriving DecidableEq

/-- Reference properties of a node bucket, taken from the declared schema of
its label when one exists and otherwise from the properties of the bucket's
first record (spec section 4.1 with the fallback pinned by
`test_write_node_data_from_gen_no_props`). -/
def refPropsFor (E : SchemaEnv) (n : BioCypherNode) : List (String × PKind) :=
  match E.nodeProperties n.node_label with
  | some ps => ps
  | none => n.properties.map (fun p => (p.1, kindOf p.2))

/-- Finds the bin of a label. -/
def getBin : List NodeBin → String → Option NodeBin
  | [], _ => none
  | b :: r, l => if b.label = l then some b else getBin r l

/-- Replaces the bin of the given bin's label, appending it when absent. -/
def putBin : List NodeBin → NodeBin → List NodeBin
  | [], b => [b]
  | c :: r, b => if c.label = b.label then b :: r else c :: putBin r b

/-- The bin a fresh node joins: the existing bin of its label with the node
appended, or a new bin opened by the node. -/
def targetBin (E : SchemaEnv) (bins : List NodeBin) (n : BioCypherNode) : NodeBin :=
  match getBin bins n.node_label with
  | some b => { b with buf := b.buf ++ [n] }
  | none =>
    { label := n.node_label
      stem := E.nodeFileStem n.node_label n.properties.isEmpty
      refProps := refPropsFor E n
      buf := [n] }

/-- Writes a bucket's header file if it does not exist yet (spec section 4.2:
header files are written once per bucket on first row). -/
def writeHeaderIfAbsent (st : BatchWriterState) (stem : String) (line : String) :
    BatchWriterState :=
  match alookup st.files (FileKey.header stem) with
  | some _ => st
  | none => { st with files := aset st.files (FileKey.header stem) line }

/-- Flushes one node bin: validates every buffered record against the bin's
reference properties and, if all conform, writes the bucket header on first
use and the buffered rows as the bucket's next part file; a conformance
failure yields `none` without writing anything; an empty buffer writes
nothing (spec sections 4.1 and 4.2). -/
def flushNodeBin (C : WriterConfig) (E : SchemaEnv) (st : BatchWriterState)
    (b : NodeBin) : Option BatchWriterState :=
  if b.buf = [] then some st
  else if b.buf.all (nodeConforms C b.refProps) then
    let st1 := writeHeaderIfAbsent st b.stem (nodeHeaderLine C b.refProps)
    let i := (alookup st1.node_part_index b.stem).getD 0
    some { st1 with
      files := aset st1.files (FileKey.part b.stem i)
        (String.join (b.buf.map (nodeRow C E b.refProps)))
      node_part_index := aset st1.node_part_index b.stem (i + 1)
      node_order := insertNew st1.node_order b.stem }
  else none

/-- Records a suppressed duplicate node in the duplicate-report collections
(spec section 4.3). -/
def dupNodeUpdate (st : BatchWriterState) (n : BioCypherNode) : BatchWriterState :=
  { st with
    duplicate_node_types := insertNew st.duplicate_node_types n.node_label
    duplicate_node_ids := insertNew st.duplicate_node_ids n.node_id }

/-- Marks a node as seen (spec section 4.3: the duplicate set holds the
(type, identifier) pairs already written). -/
def markNodeSeen (st : BatchWriterState) (n : BioCypherNode) : BatchWriterState :=
  { st with seen_node_ids := (n.node_label, n.node_id) :: st.seen_node_ids }

/-- Flushes the remaining node bins when the stream is exhausted, in bucket
creation order, stopping at the first conformance failure (spec section
4.1: a mismatch is fatal for the whole call). -/
def nodeFinal (C : WriterConfig) (E : SchemaEnv) :
    BatchWriterState → List NodeBin → Bool × BatchWriterState
  | st, [] => (true, st)
  | st, b :: r =>
    match flushNodeBin C E st b with
    | none => (false, st)
    | some st1 => nodeFinal C E st1 r

/-- The streaming loop of `_write_node_data`.  Modelled from the spec
(sections 4.2-4.4): each node is first checked against the duplicate set
(suppressed and reported when already seen), then buffered in its label's
bin; a bin reaching `batch_size` records is flushed at once; a conformance
failure aborts the call with failure; the remaining bins are flushed when the
stream ends. -/
def nodeGo (C : WriterConfig) (E : SchemaEnv) (batch : Nat) :
    BatchWriterState → List NodeBin → List BioCypherNode → Bool × BatchWriterState
  | st, bins, [] => nodeFinal C E st bins
  | st, bins, n :: rest =>
    if (n.node_label, n.node_id) ∈ st.seen_node_ids then
      nodeGo C E batch (dupNodeUpdate st n) bins rest
    else
      let st1 := markNodeSeen st n
      let b := targetBin E bins n
      if b.buf.length = batch then
        match flushNodeBin C E st1 b with
        | none => (false, st1)
        | some st2 => nodeGo C E batch st2 (putBin bins { b with buf := [] }) rest
      else
        nodeGo C E batch st1 (putBin bins b) rest

/-- Entry point `_write_node_data` of the batch writer, modelled from the
spec (section 4.4 `writeNodes`). -/
def write_node_data (C : WriterConfig) (E : SchemaEnv) (batch : Nat)
    (st : BatchWriterState) (nodes : List BioCypherNode) : Bool × BatchWriterState :=
  nodeGo C E batch st [] nodes

/-- Public `write_nodes` operation (spec section 4.4). -/
def write_nodes (C : WriterConfig) (E : SchemaEnv) (batch : Nat)
    (st : BatchWriterState) (nodes : List BioCypherNode) : Bool × BatchWriterState :=
  write_node_data C E batch st nodes

/-! ## Edge path -/

/-- The in-flight buffer of one edge bucket, keyed by its file-name stem. -/
structure EdgeBin where
  stem : String
  refProps : List (String × PKind)
  buf : List BioCypherEdge
deriving DecidableEq

/-- Reference properties of an edge bucket: the declared schema of its input
relationship label when one exists, otherwise the properties of the bucket's
first record. -/
def edgeRefPropsFor (E : SchemaEnv) (e : BioCypherEdge) : List (String × PKind) :=
  match E.edgeProperties e.input_relationship_label with
  | some ps => ps
  | none => e.properties.map (fun p => (p.1, kindOf p.2))

/-- Finds the edge bin of a stem. -/
def getEBin : List EdgeBin → String → Option EdgeBin
  | [], _ => none
  | b :: r, s => if b.stem = s then some b else getEBin r s

/-- Replaces the edge bin of the given bin's stem, appending it when
absent. -/
def putEBin : List EdgeBin → EdgeBin → List EdgeBin
  | [], b => [b]
  | c :: r, b => if c.stem = b.stem then b :: r else c :: putEBin r b

/-- The duplicate-set key of an edge: its input relationship label together
with the concatenation `source_id ++ "_" ++ target_id` (spec section 4.3). -/
def edgeKey (e : BioCypherEdge) : String × String :=
  (e.input_relationship_label, e.source_id ++ "_" ++ e.target_id)

/-- The file-name stem of an edge's bucket, supplied by translation from the
input relationship label with the graph label as fallback (pinned by
`test_write_edge_data_from_gen` and `test_create_import_call`). -/
def edgeStem (E : SchemaEnv) (e : BioCypherEdge) : String :=
  E.edgeFileStem e.input_relationship_label e.graph_db_relationship_label

/-- The bin a fresh edge joins. -/
def targetEBin (E : SchemaEnv) (bins : List EdgeBin) (e : BioCypherEdge) : EdgeBin :=
  match getEBin bins (edgeStem E e) with
  | some b => { b with buf := b.buf ++ [e] }
  | none =>
    { stem := edgeStem E e
      refProps := edgeRefPropsFor E e
      buf := [e] }

/-- Flushes one edge bin; mirrors `flushNodeBin`. -/
def flushEdgeBin (C : WriterConfig) (st : BatchWriterState) (b : EdgeBin) :
    Option BatchWriterState :=
  if b.buf = [] then some st
  else if b.buf.all (edgeConforms b.refProps) then
    let st1 := writeHeaderIfAbsent st b.stem (edgeHeaderLine C b.refProps)
    let i := (alookup st1.edge_part_index b.stem).getD 0
    some { st1 with
      files := aset st1.files (FileKey.part b.stem i)
        (String.join (b.buf.map (edgeRow C b.refProps)))
      edge_part_index := aset st1.edge_part_index b.stem (i + 1)
      edge_order := insertNew st1.edge_order b.stem }
  else none

/-- Records a suppressed duplicate edge: its input relationship label and its
`source_id ++ "_" ++ target_id` pair (spec section 4.3, pinned by
`test_get_duplicate_edges`). -/
def dupEdgeUpdate (st : BatchWriterState) (e : BioCypherEdge) : BatchWriterState :=
  { st with
    duplicate_edge_types := insertNew st.duplicate_edge_types e.input_relationship_label
    duplicate_edge_ids := insertNew st.duplicate_edge_ids (e.source_id ++ "_" ++ e.target_id) }

/-- Marks an edge as seen. -/
def markEdgeSeen (st : BatchWriterState) (e : BioCypherEdge) : BatchWriterState :=
  { st with seen_edge_ids := edgeKey e :: st.seen_edge_ids }

/-- Flushes the remaining edge bins when the stream is exhausted. -/
def edgeFinal (C : WriterConfig) :
    BatchWriterState → List EdgeBin → Bool × BatchWriterState
  | st, [] => (true, st)
  | st, b :: r =>
    match flushEdgeBin C st b with
    | none => (false, st)
    | some st1 => edgeFinal C st1 r

/-- The streaming loop of `_write_edge_data`; mirrors `nodeGo`. -/
def edgeGo (C : WriterConfig) (E : SchemaEnv) (batch : Nat) :
    BatchWriterState → List EdgeBin → List BioCypherEdge → Bool × BatchWriterState
  | st, bins, [] => edgeFinal C st bins
  | st, bins, e :: rest =>
    if edgeKey e ∈ st.seen_edge_ids then
      edgeGo C E batch (dupEdgeUpdate st e) bins rest
    else
      let st1 := markEdgeSeen st e
      let b := targetEBin E bins e
      if b.buf.length = batch then
        match flushEdgeBin C st1 b with
        | none => (false, st1)
        | some st2 => edgeGo C E batch st2 (putEBin bins { b with buf := [] }) rest
      else
        edgeGo C E batch st1 (putEBin bins b) rest

/-- Entry point `_write_edge_data` of the batch writer. -/
def write_edge_data (C : WriterConfig) (E : SchemaEnv) (batch : Nat)
    (st : BatchWriterState) (edges : List BioCypherEdge) : Bool × BatchWriterState :=
  edgeGo C E batch st [] edges

/-- Splits an edge stream into the reified nodes and the flat edge list:
each `BioCypherRelAsNode` contributes its node and its two edges in place
(spec section 4.4). -/
def splitEdgeStream : List EdgeStreamItem → List BioCypherNode × List BioCypherEdge
  | [] => ([], [])
  | .edge e :: r =>
    let (ns, es) := splitEdgeStream r
    (ns, e :: es)
  | .relAsNode t :: r =>
    let (ns, es) := splitEdgeStream r
    (t.node :: ns, t.source_edge :: t.target_edge :: es)

/-- Public `write_edges` operation (spec section 4.4): relationship-as-node
triples are split into one node-write and two edge-writes, all going through
the same suppression and validation logic. -/
def write_edges (C : WriterConfig) (E : SchemaEnv) (batch : Nat)
    (st : BatchWriterState) (items : List EdgeStreamItem) : Bool × BatchWriterState :=
  let (ns, es) := splitEdgeStream items
  let (pn, st1) := write_node_data C E batch st ns
  let (pe, st2) := write_edge_data C E batch st1 es
  (pn && pe, st2)

/-! ## Import call assembly (spec section 4.4) -/

/-- One `--nodes` clause of the import call, trailing space included. -/
def nodesClause (C : WriterConfig) (stem : String) : String :=
  "--nodes=\"" ++ C.dirname ++ "/" ++ stem ++ "-header.csv," ++ C.dirname ++ "/"
    ++ stem ++ "-part.*\" "

/-- One `--relationships` clause of the import call, trailing space
included. -/
def relationshipsClause (C : WriterConfig) (stem : String) : String :=
  "--relationships=\"" ++ C.dirname ++ "/" ++ stem ++ "-header.csv," ++ C.dirname ++ "/"
    ++ stem ++ "-part.*\" "

/-- The loader invocation and its fixed flags, trailing space included (spec
section 6). -/
def importCallHead (C : WriterConfig) : String :=
  "bin/neo4j-admin import --database=" ++ C.db_name
    ++ " --delimiter=\"" ++ C.delimiter
    ++ "\" --array-delimiter=\"" ++ C.array_delimiter
    ++ "\" --quote=\"" ++ C.quote ++ "\" --force=true "

/-- `get_import_call`: the loader invocation followed by one `--nodes` clause
per node bucket in first-write order, then one `--relationships` clause per
edge bucket in first-write order (spec section 4.4). -/
def get_import_call (C : WriterConfig) (st : BatchWriterState) : String :=
  importCallHead C
    ++ String.join (st.node_order.map (nodesClause C))
    ++ String.join (st.edge_order.map (relationshipsClause C))

/-- `write_import_call`: writes the import call line into the output
directory's script file. -/
def write_import_call (C : WriterConfig) (st : BatchWriterState) : BatchWriterState :=
  { st with files := aset st.files FileKey.importScript (get_import_call C st) }

/-- `get_duplicate_nodes`: the accumulated duplicate node types and
identifiers (spec section 4.4). -/
def get_duplicate_nodes (st : BatchWriterState) : List String × List String :=
  (st.duplicate_node_types, st.duplicate_node_ids)

/-- `get_duplicate_edges`: the accumulated duplicate edge types and id
pairs. -/
def get_duplicate_edges (st : BatchWriterState) : List String × List String :=
  (st.duplicate_edge_types, st.duplicate_edge_ids)

/-! ## Basic lemmas about the state helpers -/

theorem alookup_aset_self {κ β : Type} [DecidableEq κ] (l : List (κ × β)) (k : κ) (v : β) :
    alookup (aset l k v) k = some v := by
  induction l with
  | nil => simp [aset, alookup]
  | cons p r ih =>
    by_cases h : p.1 = k
    · simp [aset, alookup, h]
    · simp [aset, alookup, h, ih]

theorem alookup_aset_ne {κ β : Type} [DecidableEq κ] (l : List (κ × β)) (k k' : κ) (v : β)
    (h : k' ≠ k) : alookup (aset l k v) k' = alookup l k' := by
  have hk : ¬ k = k' := fun he => h he.symm
  induction l with
  | nil => simp [aset, alookup, hk]
  | cons p r ih =>
    by_cases hp : p.1 = k
    · subst hp
      simp [aset, alookup, hk]
    · simp [aset, alookup, hp, ih]

theorem alookup_aset_isSome {κ β : Type} [DecidableEq κ] (l : List (κ × β)) (k k' : κ) (v : β)
    (h : (alookup l k').isSome) : (alookup (aset l k v) k').isSome := by
  by_cases hk : k' = k
  · subst hk
    simp [alookup_aset_self]
  · rw [alookup_aset_ne l k k' v hk]
    exact h

theorem mem_insertNew_self (l : List String) (s : String) : s ∈ insertNew l s := by
  unfold insertNew
  by_cases h : s ∈ l <;> simp [h]

theorem mem_insertNew_of_mem (l : List String) (s x : String) (h : x ∈ l) :
    x ∈ insertNew l s := by
  unfold insertNew
  by_cases hs : s ∈ l <;> simp [hs, h]

/-! ## Lemmas about node bins -/

theorem getBin_some {bins : List NodeBin} {l : String} {b : NodeBin}
    (h : getBin bins l = some b) : b ∈ bins ∧ b.label = l := by
  induction bins with
  | nil => simp [getBin] at h
  | cons c r ih =>
    by_cases hc : c.label = l
    · simp [getBin, hc] at h
      subst h
      exact ⟨List.mem_cons_self _ _, hc⟩
    · simp [getBin, hc] at h
      rcases ih h with ⟨hm, he⟩
      exact ⟨List.mem_cons_of_mem _ hm, he⟩

theorem getBin_none {bins : List NodeBin} {l : String}
    (h : getBin bins l = none) : ∀ b ∈ bins, b.label ≠ l := by
  induction bins with
  | nil => simp
  | cons c r ih =>
    by_cases hc : c.label = l
    · simp [getBin, hc] at h
    · simp [getBin, hc] at h
      intro b hb
      rcases List.mem_cons.mp hb with hb | hb
      · subst hb; exact hc
      · exact ih h b hb

theorem mem_putBin {bins : List NodeBin} {b c : NodeBin}
    (h : c ∈ putBin bins b) : c = b ∨ c ∈ bins := by
  induction bins with
  | nil => simp [putBin] at h; exact Or.inl h
  | cons d r ih =>
    by_cases hd : d.label = b.label
    · simp [putBin, hd] at h
      rcases h with h | h
      · exact Or.inl h
      · exact Or.inr (List.mem_cons_of_mem _ h)
    · simp [putBin, hd] at h
      rcases h with h | h
      · exact Or.inr (by simp [h])
      · rcases ih h with h | h
        · exact Or.inl h
        · exact Or.inr (List.mem_cons_of_mem _ h)

theorem mem_putBin_self (bins : List NodeBin) (b : NodeBin) : b ∈ putBin bins b := by
  induction bins with
  | nil => simp [putBin]
  | cons d r ih =>
    by_cases hd : d.label = b.label
    · simp [putBin, hd]
    · simp [putBin, hd]
      exact Or.inr ih

theorem mem_putBin_of_mem_ne {bins : List NodeBin} {b c : NodeBin}
    (hm : c ∈ bins) (hne : c.label ≠ b.label) : c ∈ putBin bins b := by
  induction bins with
  | nil => simp at hm
  | cons d r ih =>
    by_cases hd : d.label = b.label
    · simp [putBin, hd]
      rcases List.mem_cons.mp hm with h | h
      · exact absurd (h ▸ hd) hne
      · exact Or.inr h
    · simp [putBin, hd]
      rcases List.mem_cons.mp hm with h | h
      · exact Or.inl h
      · exact Or.inr (ih h)

theorem label_mem_putBin {bins : List NodeBin} {b c : NodeBin}
    (h : c ∈ putBin bins b) : c.label ∈ bins.map NodeBin.label ∨ c.label = b.label := by
  rcases mem_putBin h with h | h
  · exact Or.inr (by rw [h])
  · exact Or.inl (List.mem_map_of_mem _ h)

theorem putBin_labels_nodup {bins : List NodeBin} {b : NodeBin}
    (h : (bins.map NodeBin.label).Nodup) : ((putBin bins b).map NodeBin.label).Nodup := by
  induction bins with
  | nil => simp [putBin]
  | cons d r ih =>
    simp only [List.map_cons, List.nodup_cons] at h
    by_cases hd : d.label = b.label
    · simp only [putBin]
      rw [if_pos hd]
      simp only [List.map_cons, List.nodup_cons]
      exact ⟨hd ▸ h.1, h.2⟩
    · simp only [putBin]
      rw [if_neg hd]
      simp only [List.map_cons, List.nodup_cons]
      constructor
      · intro hc
        rcases List.mem_map.mp hc with ⟨c, hc1, hc2⟩
        rcases label_mem_putBin hc1 with hh | hh
        · exact h.1 (hc2 ▸ hh)
        · exact hd (hc2 ▸ hh)
      · exact ih h.2

theorem getBin_of_mem_nodup {bins : List NodeBin} {b : NodeBin}
    (hnd : (bins.map NodeBin.label).Nodup) (hm : b ∈ bins) :
    getBin bins b.label = some b := by
  induction bins with
  | nil => simp at hm
  | cons d r ih =>
    simp only [List.map_cons, List.nodup_cons] at hnd
    rcases List.mem_cons.mp hm with h | h
    · subst h
      simp [getBin]
    · by_cases hd : d.label = b.label
      · exact absurd (hd ▸ List.mem_map_of_mem NodeBin.label h) hnd.1
      · simp [getBin, hd]
        exact ih hnd.2 h

/-! ## Lemmas about flushing and the node loop -/

theorem targetBin_label (E : SchemaEnv) (bins : List NodeBin) (n : BioCypherNode) :
    (targetBin E bins n).label = n.node_label := by
  unfold targetBin
  cases hg : getBin bins n.node_label with
  | none => rfl
  | some b =>
    simp only []
    exact (getBin_some hg).2

theorem mem_targetBin_buf (E : SchemaEnv) (bins : List NodeBin) (n : BioCypherNode) :
    n ∈ (targetBin E bins n).buf := by
  unfold targetBin
  cases hg : getBin bins n.node_label with
  | none => simp
  | some b => simp

theorem targetBin_refProps_schema {E : SchemaEnv} {bins : List NodeBin}
    {n : BioCypherNode} {ps : List (String × PKind)}
    (hps : E.nodeProperties n.node_label = some ps)
    (hbins : ∀ b ∈ bins, b.label = n.node_label → b.refProps = ps) :
    (targetBin E bins n).refProps = ps := by
  unfold targetBin
  cases hg : getBin bins n.node_label with
  | none => simp [refPropsFor, hps]
  | some b =>
    simp only []
    exact hbins b (getBin_some hg).1 (getBin_some hg).2

theorem putBin_refProps_pres {bins : List NodeBin} {r : NodeBin} {lab : String}
    {ps : List (String × PKind)}
    (hr : r.label = lab → r.refProps = ps)
    (hbins : ∀ b ∈ bins, b.label = lab → b.refProps = ps) :
    ∀ b ∈ putBin bins r, b.label = lab → b.refProps = ps := by
  intro b hb
  rcases mem_putBin hb with h | h
  · subst h; exact hr
  · exact hbins b h

theorem flushNodeBin_some_conforms {C : WriterConfig} {E : SchemaEnv}
    {st : BatchWriterState} {b : NodeBin} {st' : BatchWriterState}
    (h : flushNodeBin C E st b = some st') :
    ∀ n ∈ b.buf, nodeConforms C b.refProps n = true := by
  intro n hn
  unfold flushNodeBin at h
  by_cases hb : b.buf = []
  · rw [hb] at hn; simp at hn
  · rw [if_neg hb] at h
    by_cases hall : b.buf.all (nodeConforms C b.refProps) = true
    · exact List.all_eq_true.mp hall n hn
    · rw [if_neg hall] at h
      simp at h

theorem flushNodeBin_fail {C : WriterConfig} {E : SchemaEnv}
    {st : BatchWriterState} {b : NodeBin} {n : BioCypherNode}
    (hn : n ∈ b.buf) (hc : nodeConforms C b.refProps n = false) :
    flushNodeBin C E st b = none := by
  unfold flushNodeBin
  have hb : ¬ b.buf = [] := by
    intro h; rw [h] at hn; simp at hn
  rw [if_neg hb, if_neg]
  intro hall
  have := List.all_eq_true.mp hall n hn
  rw [hc] at this
  exact Bool.false_ne_true this

theorem writeHeaderIfAbsent_frame (st : BatchWriterState) (s line : String) :
    (writeHeaderIfAbsent st s line).seen_node_ids = st.seen_node_ids ∧
    (writeHeaderIfAbsent st s line).seen_edge_ids = st.seen_edge_ids ∧
    (writeHeaderIfAbsent st s line).duplicate_node_types = st.duplicate_node_types ∧
    (writeHeaderIfAbsent st s line).duplicate_node_ids = st.duplicate_node_ids ∧
    (writeHeaderIfAbsent st s line).duplicate_edge_types = st.duplicate_edge_types ∧
    (writeHeaderIfAbsent st s line).duplicate_edge_ids = st.duplicate_edge_ids ∧
    (writeHeaderIfAbsent st s line).edge_part_index = st.edge_part_index ∧
    (writeHeaderIfAbsent st s line).edge_order = st.edge_order ∧
    (writeHeaderIfAbsent st s line).node_part_index = st.node_part_index ∧
    (writeHeaderIfAbsent st s line).node_order = st.node_order := by
  unfold writeHeaderIfAbsent
  cases alookup st.files (FileKey.header s) <;> simp

theorem flushNodeBin_frame {C : WriterConfig} {E : SchemaEnv}
    {st : BatchWriterState} {b : NodeBin} {st' : BatchWriterState}
    (h : flushNodeBin C E st b = some st') :
    st'.seen_node_ids = st.seen_node_ids ∧
    st'.seen_edge_ids = st.seen_edge_ids ∧
    st'.duplicate_node_types = st.duplicate_node_types ∧
    st'.duplicate_node_ids = st.duplicate_node_ids ∧
    st'.duplicate_edge_types = st.duplicate_edge_types ∧
    st'.duplicate_edge_ids = st.duplicate_edge_ids ∧
    st'.edge_part_index = st.edge_part_index ∧
    st'.edge_order = st.edge_order := by
  unfold flushNodeBin at h
  by_cases hb : b.buf = []
  · rw [if_pos hb] at h
    cases h
    exact ⟨rfl, rfl, rfl, rfl, rfl, rfl, rfl, rfl⟩
  · rw [if_neg hb] at h
    by_cases hall : b.buf.all (nodeConforms C b.refProps) = true
    · rw [if_pos hall] at h
      simp only [Option.some.injEq] at h
      subst h
      have hw := writeHeaderIfAbsent_frame st b.stem (nodeHeaderLine C b.refProps)
      simp only []
      exact ⟨hw.1, hw.2.1, hw.2.2.1, hw.2.2.2.1, hw.2.2.2.2.1, hw.2.2.2.2.2.1,
        hw.2.2.2.2.2.2.1, hw.2.2.2.2.2.2.2.1⟩
    · rw [if_neg hall] at h
      simp at h

theorem nodeFinal_true {C : WriterConfig} {E : SchemaEnv} :
    ∀ (bins : List NodeBin) (st st' : BatchWriterState),
      nodeFinal C E st bins = (true, st') →
      ∀ b ∈ bins, ∀ n ∈ b.buf, nodeConforms C b.refProps n = true := by
  intro bins
  induction bins with
  | nil =>
    intro st st' h b hb
    simp at hb
  | cons c r ih =>
    intro st st' h b hb n hn
    unfold nodeFinal at h
    cases hf : flushNodeBin C E st c with
    | none => rw [hf] at h; simp at h
    | some st1 =>
      rw [hf] at h
      rcases List.mem_cons.mp hb with hb | hb
      · subst hb
        exact flushNodeBin_some_conforms hf n hn
      · exact ih st1 st' h b hb n hn

/-! ## Key-set and property-less-path lemmas -/

theorem keysMatch_mem {a b : List String} (h : keysMatch a b = true) :
    ∀ k ∈ b, k ∈ a := by
  unfold keysMatch at h
  rw [Bool.and_eq_true] at h
  intro k hk
  exact of_decide_eq_true (List.all_eq_true.mp h.2 k hk)

theorem keysMatch_false_of_missing {a b : List String} {k : String}
    (hk : k ∈ b) (hn : k ∉ a) : keysMatch a b = false := by
  cases hm : keysMatch a b with
  | false => rfl
  | true => exact absurd (keysMatch_mem hm k hk) hn

theorem keysMatch_sub {a b : List String} (h : keysMatch a b = true) :
    ∀ k ∈ a, k ∈ b := by
  unfold keysMatch at h
  rw [Bool.and_eq_true] at h
  intro k hk
  exact of_decide_eq_true (List.all_eq_true.mp h.1 k hk)

theorem keysMatch_false_of_extra {a b : List String} {k : String}
    (hk : k ∈ a) (hn : k ∉ b) : keysMatch a b = false := by
  cases hm : keysMatch a b with
  | false => rfl
  | true => exact absurd (keysMatch_sub hm k hk) hn

theorem nodeConforms_empty_strict (C : WriterConfig) (r : List (String × PKind))
    {n : BioCypherNode} (hC : C.strict_mode = true) (hp : n.properties = []) :
    nodeConforms C r n = false := by
  unfold nodeConforms
  rw [hp, hC]
  rw [if_neg (by decide)]
  have hs : "source" ∈ requiredKeys C r := by
    unfold requiredKeys
    rw [hC]
    exact List.mem_append_right _ (by decide)
  exact keysMatch_false_of_missing hs (by simp)

theorem nodeConforms_nonempty_ref_nil {C : WriterConfig} {n : BioCypherNode}
    (hC : C.strict_mode = false) (hp : ¬ n.properties = []) :
    nodeConforms C [] n = false := by
  have hie : n.properties.isEmpty = false := by
    cases hnp : n.properties with
    | nil => exact absurd hnp hp
    | cons a l => rfl
  unfold nodeConforms
  rw [hie, hC]
  rw [if_neg (by decide)]
  have hreq : requiredKeys C [] = [] := by
    unfold requiredKeys
    rw [hC]
    rfl
  rw [hreq]
  cases hnp : n.properties with
  | nil => exact absurd hnp hp
  | cons a l =>
    have hmem : a.1 ∈ List.map (fun p => p.1) (a :: l) := by simp
    exact keysMatch_false_of_extra hmem (by simp)

theorem nodeGo_true_buf {C : WriterConfig} {E : SchemaEnv} {batch : Nat} :
    ∀ (nodes : List BioCypherNode) (st : BatchWriterState) (bins : List NodeBin)
      (st' : BatchWriterState),
      (bins.map NodeBin.label).Nodup →
      nodeGo C E batch st bins nodes = (true, st') →
      ∀ b ∈ bins, ∀ n ∈ b.buf, nodeConforms C b.refProps n = true := by
  intro nodes
  induction nodes with
  | nil =>
    intro st bins st' hnd h
    exact nodeFinal_true bins st st' h
  | cons n0 rest ih =>
    intro st bins st' hnd h b hb n hn
    simp only [nodeGo] at h
    by_cases hdup : (n0.node_label, n0.node_id) ∈ st.seen_node_ids
    · rw [if_pos hdup] at h
      exact ih _ bins st' hnd h b hb n hn
    · rw [if_neg hdup] at h
      by_cases hlen : (targetBin E bins n0).buf.length = batch
      · rw [if_pos hlen] at h
        cases hf : flushNodeBin C E (markNodeSeen st n0) (targetBin E bins n0) with
        | none => rw [hf] at h; simp at h
        | some st2 =>
          rw [hf] at h
          simp only [] at h
          by_cases hbl : b.label = n0.node_label
          · have hg : getBin bins n0.node_label = some b := by
              rw [← hbl]; exact getBin_of_mem_nodup hnd hb
            have htb : targetBin E bins n0 = { b with buf := b.buf ++ [n0] } := by
              unfold targetBin
              rw [hg]
            have hconf := flushNodeBin_some_conforms hf
            rw [htb] at hconf
            exact hconf n (List.mem_append_left _ hn)
          · have hb' : b ∈ putBin bins { targetBin E bins n0 with buf := [] } := by
              apply mem_putBin_of_mem_ne hb
              simp only [targetBin_label]
              exact hbl
            exact ih _ _ st' (putBin_labels_nodup hnd) h b hb' n hn
      · rw [if_neg hlen] at h
        by_cases hbl : b.label = n0.node_label
        · have hg : getBin bins n0.node_label = some b := by
            rw [← hbl]; exact getBin_of_mem_nodup hnd hb
          have htb : targetBin E bins n0 = { b with buf := b.buf ++ [n0] } := by
            unfold targetBin
            rw [hg]
          have hmem : targetBin E bins n0 ∈ putBin bins (targetBin E bins n0) :=
            mem_putBin_self _ _
          have := ih _ _ st' (putBin_labels_nodup hnd) h _ hmem n
            (by rw [htb]; exact List.mem_append_left _ hn)
          rw [htb] at this
          exact this
        · have hb' : b ∈ putBin bins (targetBin E bins n0) := by
            apply mem_putBin_of_mem_ne hb
            simp only [targetBin_label]
            exact hbl
          exact ih _ _ st' (putBin_labels_nodup hnd) h b hb' n hn

theorem nodeGo_true_elem_conforms {C : WriterConfig} {E : SchemaEnv} {batch : Nat} :
    ∀ (nodes : List BioCypherNode) (st : BatchWriterState) (bins : List NodeBin)
      (st' : BatchWriterState) (n : BioCypherNode) (ps : List (String × PKind)),
      (bins.map NodeBin.label).Nodup →
      (∀ b ∈ bins, b.label = n.node_label → b.refProps = ps) →
      E.nodeProperties n.node_label = some ps →
      n ∈ nodes →
      (n.node_label, n.node_id) ∉ st.seen_node_ids →
      (∀ m ∈ nodes, (m.node_label, m.node_id) = (n.node_label, n.node_id) → m = n) →
      nodeGo C E batch st bins nodes = (true, st') →
      nodeConforms C ps n = true := by
  intro nodes
  induction nodes with
  | nil =>
    intro st bins st' n ps _ _ _ hmem
    simp at hmem
  | cons n0 rest ih =>
    intro st bins st' n ps hnd hbins hps hmem hfresh huniq h
    simp only [nodeGo] at h
    by_cases hdup : (n0.node_label, n0.node_id) ∈ st.seen_node_ids
    · rw [if_pos hdup] at h
      have hne : n0 ≠ n := by
        intro he
        exact hfresh (he ▸ hdup)
      have hmem' : n ∈ rest := by
        rcases List.mem_cons.mp hmem with he | he
        · exact absurd he.symm hne
        · exact he
      exact ih _ bins st' n ps hnd hbins hps hmem'
        (by simpa [dupNodeUpdate] using hfresh)
        (fun m hm => huniq m (List.mem_cons_of_mem _ hm)) h
    · rw [if_neg hdup] at h
      by_cases heq : n0 = n
      · subst heq
        by_cases hlen : (targetBin E bins n0).buf.length = batch
        · rw [if_pos hlen] at h
          cases hf : flushNodeBin C E (markNodeSeen st n0) (targetBin E bins n0) with
          | none => rw [hf] at h; simp at h
          | some st2 =>
            rw [hf] at h
            have hconf := flushNodeBin_some_conforms hf n0 (mem_targetBin_buf E bins n0)
            rwa [targetBin_refProps_schema hps hbins] at hconf
        · rw [if_neg hlen] at h
          have hconf := nodeGo_true_buf rest (markNodeSeen st n0)
            (putBin bins (targetBin E bins n0)) st' (putBin_labels_nodup hnd) h
            (targetBin E bins n0) (mem_putBin_self _ _) n0 (mem_targetBin_buf E bins n0)
          rwa [targetBin_refProps_schema hps hbins] at hconf
      · have hmem' : n ∈ rest := by
          rcases List.mem_cons.mp hmem with he | he
          · exact absurd he.symm heq
          · exact he
        have hkey : (n0.node_label, n0.node_id) ≠ (n.node_label, n.node_id) := by
          intro he
          exact heq (huniq n0 (List.mem_cons_self _ _) he)
        have hbins' : ∀ r0 : NodeBin, r0.label = n0.node_label → r0.refProps =
            (targetBin E bins n0).refProps → ∀ b ∈ putBin bins r0,
            b.label = n.node_label → b.refProps = ps := by
          intro r0 hr0l hr0p
          apply putBin_refProps_pres
          · intro hlab
            have hll : n0.node_label = n.node_label := hr0l ▸ hlab
            rw [hr0p]
            exact targetBin_refProps_schema (hll ▸ hps) (fun b hb hbl => hbins b hb (hll ▸ hbl))
          · exact hbins
        have hfresh1 : (n.node_label, n.node_id) ∉ (markNodeSeen st n0).seen_node_ids := by
          simp only [markNodeSeen, List.mem_cons]
          intro hcase
          rcases hcase with hcase | hcase
          · exact hkey hcase.symm
          · exact hfresh hcase
        have huniq' : ∀ m ∈ rest, (m.node_label, m.node_id) = (n.node_label, n.node_id) → m = n :=
          fun m hm => huniq m (List.mem_cons_of_mem _ hm)
        by_cases hlen : (targetBin E bins n0).buf.length = batch
        · rw [if_pos hlen] at h
          cases hf : flushNodeBin C E (markNodeSeen st n0) (targetBin E bins n0) with
          | none => rw [hf] at h; simp at h
          | some st2 =>
            rw [hf] at h
            simp only [] at h
            have hfresh2 : (n.node_label, n.node_id) ∉ st2.seen_node_ids := by
              rw [(flushNodeBin_frame hf).1]
              exact hfresh1
            exact ih _ _ st' n ps (putBin_labels_nodup hnd)
              (hbins' { targetBin E bins n0 with buf := [] }
                (targetBin_label E bins n0) rfl) hps hmem' hfresh2 huniq' h
        · rw [if_neg hlen] at h
          exact ih _ _ st' n ps (putBin_labels_nodup hnd)
            (hbins' (targetBin E bins n0) (targetBin_label E bins n0) rfl)
            hps hmem' hfresh1 huniq' h

/-! ## File-presence monotonicity: the writer never deletes a file -/

theorem writeHeaderIfAbsent_files_mono {st : BatchWriterState} {s line : String}
    {k : FileKey} (h : (alookup st.files k).isSome) :
    (alookup (writeHeaderIfAbsent st s line).files k).isSome := by
  unfold writeHeaderIfAbsent
  cases alookup st.files (FileKey.header s) with
  | some _ => exact h
  | none => exact alookup_aset_isSome _ _ _ _ h

theorem flushNodeBin_files_mono {C : WriterConfig} {E : SchemaEnv}
    {st : BatchWriterState} {b : NodeBin} {st' : BatchWriterState} {k : FileKey}
    (hf : flushNodeBin C E st b = some st')
    (h : (alookup st.files k).isSome) : (alookup st'.files k).isSome := by
  unfold flushNodeBin at hf
  by_cases hb : b.buf = []
  · rw [if_pos hb] at hf
    cases hf
    exact h
  · rw [if_neg hb] at hf
    by_cases hall : b.buf.all (nodeConforms C b.refProps) = true
    · rw [if_pos hall] at hf
      simp only [Option.some.injEq] at hf
      subst hf
      exact alookup_aset_isSome _ _ _ _ (writeHeaderIfAbsent_files_mono h)
    · rw [if_neg hall] at hf
      simp at hf

theorem nodeFinal_files_mono {C : WriterConfig} {E : SchemaEnv} :
    ∀ (bins : List NodeBin) (st : BatchWriterState) (k : FileKey),
      (alookup st.files k).isSome →
      (alookup (nodeFinal C E st bins).2.files k).isSome := by
  intro bins
  induction bins with
  | nil => intro st k h; exact h
  | cons c r ih =>
    intro st k h
    unfold nodeFinal
    cases hf : flushNodeBin C E st c with
    | none => exact h
    | some st1 => exact ih st1 k (flushNodeBin_files_mono hf h)

theorem nodeGo_files_mono {C : WriterConfig} {E : SchemaEnv} {batch : Nat} :
    ∀ (nodes : List BioCypherNode) (st : BatchWriterState) (bins : List NodeBin)
      (k : FileKey),
      (alookup st.files k).isSome →
      (alookup (nodeGo C E batch st bins nodes).2.files k).isSome := by
  intro nodes
  induction nodes with
  | nil => intro st bins k h; exact nodeFinal_files_mono bins st k h
  | cons n0 rest ih =>
    intro st bins k h
    simp only [nodeGo]
    by_cases hdup : (n0.node_label, n0.node_id) ∈ st.seen_node_ids
    · rw [if_pos hdup]
      exact ih _ bins k (by simpa [dupNodeUpdate] using h)
    · rw [if_neg hdup]
      by_cases hlen : (targetBin E bins n0).buf.length = batch
      · rw [if_pos hlen]
        cases hf : flushNodeBin C E (markNodeSeen st n0) (targetBin E bins n0) with
        | none =>
          simpa [markNodeSeen] using h
        | some st2 =>
          exact ih _ _ k (flushNodeBin_files_mono hf (by simpa [markNodeSeen] using h))
      · rw [if_neg hlen]
        exact ih _ _ k (by simpa [markNodeSeen] using h)

/-! ## Concrete environment mirroring the repository's test fixtures

The schema configuration of the tests declares the `protein` class with the
four ordered properties used throughout `src/test/test_write.py`; the
translated file stems and translated edge class names mirror the file names
asserted by the tests; ancestries are kept minimal because no claim depends
on the concrete ontology. -/

def proteinSchema : List (String × PKind) :=
  [("name", PKind.kstr), ("score", PKind.kfloat), ("taxon", PKind.kint),
   ("genes", PKind.kstrArr)]

def testSchemaEnv : SchemaEnv where
  nodeProperties l := if l = "protein" then some proteinSchema else none
  edgeProperties _ := none
  nodeFileStem l pe :=
    if l = "protein" then "Protein"
    else if l = "microRNA" then (if pe then "microRNA" else "MicroRNA")
    else if l = "post translational interaction" then "PostTranslationalInteraction"
    else l
  edgeFileStem il gl :=
    if il = "gene_PERTURBED_IN_DISEASE_disease" then "GeneToDiseaseAssociation"
    else if il = "Gene_Is_Mutated_In_Cell_Tissue" then "MutationToTissueAssociation"
    else gl
  ancestry l :=
    if l = "protein" then ["Protein"]
    else if l = "microRNA" then ["MicroRNA"]
    else [l]

def testConfig : WriterConfig :=
  { delimiter := ";", array_delimiter := "|", quote := "\"", dirname := "/out" }

/-- A conforming protein node as built by `_get_nodes` in the tests. -/
def proteinNode (i : String) : BioCypherNode :=
  { node_id := i
    node_label := "protein"
    properties := [("score", PropValue.vfloat "4.0"),
                   ("name", PropValue.vstr "StringProperty1"),
                   ("taxon", PropValue.vint 9606),
                   ("genes", PropValue.varr ["gene1", "gene2"])] }

/-- The offending node of `test_not_enough_properties`: a protein carrying a
single undeclared property. -/
def shortProtein : BioCypherNode :=
  { node_id := "p0", node_label := "protein",
    properties := [("p1", PropValue.vstr "aaaa")] }

/-- A conforming microRNA node as built by `_get_nodes` in the tests; the
test schema declares no properties for `microRNA`, so its bucket's reference
properties come from the first record. -/
def mirnaNode (i : String) : BioCypherNode :=
  { node_id := i
    node_label := "microRNA"
    preferred_id := "mirbase"
    properties := [("name", PropValue.vstr "StringProperty1"),
                   ("taxon", PropValue.vint 9606)] }

/-- C1: in every write call, an entity that is not suppressed as a duplicate
(spec section 4.4 applies duplicate suppression before the conformance
check) and whose property-key set differs from the declared schema of its
type makes the call return failure; a file present before a call is never
removed by it, so output already flushed for other types is retained; and in
the scenario of `test_not_enough_properties` - a conforming protein record
buffered before a nonconforming one of the same type - the call fails and
leaves no file at all, in particular no part file for that type's bucket. -/
theorem c1_conformance_failure :
    (∀ (C : WriterConfig) (E : SchemaEnv) (batch : Nat) (st : BatchWriterState)
       (nodes : List BioCypherNode) (n : BioCypherNode) (ps : List (String × PKind)),
       n ∈ nodes →
       E.nodeProperties n.node_label = some ps →
       (n.node_label, n.node_id) ∉ st.seen_node_ids →
       (∀ m ∈ nodes, (m.node_label, m.node_id) = (n.node_label, n.node_id) → m = n) →
       nodeConforms C ps n = false →
       (write_node_data C E batch st nodes).1 = false) ∧
    (∀ (C : WriterConfig) (E : SchemaEnv) (batch : Nat) (st : BatchWriterState)
       (nodes : List BioCypherNode) (k : FileKey),
       (alookup st.files k).isSome →
       (alookup (write_node_data C E batch st nodes).2.files k).isSome) ∧
    ((write_node_data testConfig testSchemaEnv 100 initialState
        [proteinNode "p1", shortProtein]).1 = false ∧
     (write_node_data testConfig testSchemaEnv 100 initialState
        [proteinNode "p1", shortProtein]).2.files = []) := by
  refine ⟨?_, ?_, ?_⟩
  · intro C E batch st nodes n ps hmem hps hfresh huniq hconf
    cases hres : (write_node_data C E batch st nodes).1 with
    | false => rfl
    | true =>
      exfalso
      have hpair : nodeGo C E batch st [] nodes =
          (true, (write_node_data C E batch st nodes).2) := by
        rw [← hres]
        exact Prod.mk.eta.symm
      have := nodeGo_true_elem_conforms nodes st []
        (write_node_data C E batch st nodes).2 n ps (by simp)
        (by intro b hb; simp at hb) hps hmem hfresh huniq hpair
      rw [hconf] at this
      exact Bool.false_ne_true this
  · intro C E batch st nodes k h
    exact nodeGo_files_mono nodes st [] k h
  · constructor
    · decide
    · decide

/-- Witness for C1: the failure conjunct applied to the concrete
`test_not_enough_properties` scenario. -/
theorem c1_conformance_failure_witness :
    (write_node_data testConfig testSchemaEnv 100 initialState
      [proteinNode "p1", shortProtein]).1 = false :=
  c1_conformance_failure.1 testConfig testSchemaEnv 100 initialState
    [proteinNode "p1", shortProtein] shortProtein proteinSchema
    (by decide) (by decide) (by decide) (by decide) (by decide)

/-! ## Strict-mode scenario fixtures (`test_write_strict`) -/

def strictConfig : WriterConfig := { testConfig with strict_mode := true }

/-- The node of `test_write_strict`: all declared protein properties plus the
three fixed strict-mode properties. -/
def strictProtein : BioCypherNode :=
  { node_id := "p1"
    node_label := "protein"
    properties := [("name", PropValue.vstr "StringProperty1"),
                   ("score", PropValue.vfloat "4.32"),
                   ("taxon", PropValue.vint 9606),
                   ("genes", PropValue.varr ["gene1", "gene2"]),
                   ("source", PropValue.vstr "source1"),
                   ("version", PropValue.vstr "version1"),
                   ("licence", PropValue.vstr "licence1")] }

/-- C9: in strict mode every node row carries the three fixed cells `source`,
`version`, `licence` immediately after the identifier cells (`id`,
`preferred_id`) and before the `:LABEL` cell, with matching header columns; a
node missing any of the three keys makes the write call fail as a
schema-conformance failure; and the `test_write_strict` scenario succeeds
producing exactly the expected row. -/
theorem c9_strict_mode :
    (∀ (C : WriterConfig), C.strict_mode = true →
      ∀ (E : SchemaEnv) (ref : List (String × PKind)) (n : BioCypherNode),
        nodeCells C E ref n =
          [n.node_id]
            ++ ref.map (fun p =>
                renderNodeValue C.quote C.array_delimiter (lookupValue n.properties p.1))
            ++ [quoteWrap C.quote n.node_id, quoteWrap C.quote n.preferred_id]
            ++ [renderNodeValue C.quote C.array_delimiter (lookupValue n.properties "source"),
                renderNodeValue C.quote C.array_delimiter (lookupValue n.properties "version"),
                renderNodeValue C.quote C.array_delimiter (lookupValue n.properties "licence")]
            ++ [labelCellOf E n.node_label] ∧
        nodeHeaderCells C ref =
          [":ID"] ++ ref.map (fun p => p.1 ++ typeSuffix p.2) ++ ["id", "preferred_id"]
            ++ ["source", "version", "licence"] ++ [":LABEL"]) ∧
    (∀ (C : WriterConfig) (E : SchemaEnv) (batch : Nat) (st : BatchWriterState)
       (nodes : List BioCypherNode) (n : BioCypherNode) (ps : List (String × PKind))
       (k : String),
       C.strict_mode = true →
       k ∈ strictKeys →
       k ∉ n.properties.map (fun p => p.1) →
       n ∈ nodes →
       E.nodeProperties n.node_label = some ps →
       (n.node_label, n.node_id) ∉ st.seen_node_ids →
       (∀ m ∈ nodes, (m.node_label, m.node_id) = (n.node_label, n.node_id) → m = n) →
       (write_node_data C E batch st nodes).1 = false) ∧
    ((write_nodes strictConfig testSchemaEnv 100 initialState [strictProtein]).1 = true ∧
      alookup (write_nodes strictConfig testSchemaEnv 100 initialState
        [strictProtein]).2.files (FileKey.part "Protein" 0) =
        some "p1;\"StringProperty1\";4.32;9606;\"gene1|gene2\";\"p1\";\"id\";\"source1\";\"version1\";\"licence1\";Protein\n" ∧
      alookup (write_nodes strictConfig testSchemaEnv 100 initialState
        [strictProtein]).2.files (FileKey.header "Protein") =
        some ":ID;name;score:double;taxon:long;genes:string[];id;preferred_id;source;version;licence;:LABEL") := by
  refine ⟨?_, ?_, ?_, ?_, ?_⟩
  · intro C hC E ref n
    constructor
    · simp [nodeCells, hC, strictKeys]
    · simp [nodeHeaderCells, hC, strictKeys]
  · intro C E batch st nodes n ps k hC hk hkn hmem hps hfresh huniq
    have hconf : nodeConforms C ps n = false := by
      unfold nodeConforms
      rw [hC]
      rw [if_neg (by simp)]
      apply keysMatch_false_of_missing _ hkn
      unfold requiredKeys
      rw [hC]
      simp only [if_pos]
      exact List.mem_append_right _ hk
    cases hres : (write_node_data C E batch st nodes).1 with
    | false => rfl
    | true =>
      exfalso
      have hpair : nodeGo C E batch st [] nodes =
          (true, (write_node_data C E batch st nodes).2) := by
        rw [← hres]
        exact Prod.mk.eta.symm
      have := nodeGo_true_elem_conforms nodes st []
        (write_node_data C E batch st nodes).2 n ps (by simp)
        (by intro b hb; simp at hb) hps hmem hfresh huniq hpair
      rw [hconf] at this
      exact Bool.false_ne_true this
  · decide
  · decide
  · decide

/-- Witness for C9: the failure conjunct applied to a strict-mode call on a
protein node lacking the `source` key. -/
theorem c9_strict_mode_witness :
    (write_node_data strictConfig testSchemaEnv 100 initialState
      [proteinNode "p1"]).1 = false :=
  c9_strict_mode.2.1 strictConfig testSchemaEnv 100 initialState
    [proteinNode "p1"] (proteinNode "p1") proteinSchema "source"
    (by decide) (by decide) (by decide) (by decide) (by decide) (by decide) (by decide)

/-! ## Null-value and value-kind rendering (claims C7 and C8) -/

/-- The node of `test_write_none_type_property_and_order_invariance` with
null-valued string and array properties, given in shuffled order. -/
def noneProtein : BioCypherNode :=
  { node_id := "p1"
    node_label := "protein"
    properties := [("taxon", PropValue.vint 9606),
                   ("score", PropValue.vint 1),
                   ("name", PropValue.vnone),
                   ("genes", PropValue.vnone)] }

/-- An edge of `_get_edges` in the tests: a `PERTURBED_IN_DISEASE` edge with
a string property and an integer property. -/
def pdEdge (src tgt : String) : BioCypherEdge :=
  { source_id := src
    target_id := tgt
    graph_db_relationship_label := "PERTURBED_IN_DISEASE"
    input_relationship_label := "gene_PERTURBED_IN_DISEASE_disease"
    properties := [("residue", PropValue.vstr "T253"), ("level", PropValue.vint 4)] }

/-- Counterexample for C7: the claim predicts that an absent value in the
string-typed `name` column renders as a quote-wrapped empty cell (two quote
characters); in the scenario of
`test_write_none_type_property_and_order_invariance` the cell renders as a
plain empty cell instead, so the written row contains `;;` and not a quoted
empty string. -/
theorem c7_counterexample :
    renderNodeValue testConfig.quote testConfig.array_delimiter
      (lookupValue noneProtein.properties "name") = "" ∧
    renderNodeValue testConfig.quote testConfig.array_delimiter
      (lookupValue noneProtein.properties "name") ≠ quoteWrap testConfig.quote "" ∧
    alookup (write_node_data testConfig testSchemaEnv 100 initialState
        [noneProtein]).2.files (FileKey.part "Protein" 0) =
      some "p1;;1;9606;;\"p1\";\"id\";Protein\n" := by
  refine ⟨by decide, by decide, by decide⟩

/-- C7 (amended): an absent/null property value renders as a plain empty
data cell regardless of the column's declared kind, on node rows and edge
rows alike; in particular the data cell of any null-valued declared column
of a node row is the empty string, and the
`test_write_none_type_property_and_order_invariance` scenario produces the
row with plain-empty cells. -/
theorem c7_none_renders_plain_empty :
    (∀ q ad : String, renderNodeValue q ad PropValue.vnone = "") ∧
    (∀ q ad : String, renderEdgeValue q ad PropValue.vnone = "") ∧
    (∀ (C : WriterConfig) (E : SchemaEnv) (ref : List (String × PKind))
       (n : BioCypherNode) (i : Nat) (hi : i < ref.length),
       lookupValue n.properties (ref.get ⟨i, hi⟩).1 = PropValue.vnone →
       (nodeCells C E ref n)[i + 1]? = some "") ∧
    (alookup (write_node_data testConfig testSchemaEnv 100 initialState
        [noneProtein]).2.files (FileKey.part "Protein" 0) =
      some "p1;;1;9606;;\"p1\";\"id\";Protein\n") := by
  refine ⟨fun _ _ => rfl, fun _ _ => rfl, ?_, by decide⟩
  intro C E ref n i hi hv
  unfold nodeCells
  rw [List.getElem?_append_left (by simp; omega)]
  rw [List.getElem?_append_left (by simp; omega)]
  rw [List.getElem?_append_left (by simp; omega)]
  rw [List.singleton_append, List.getElem?_cons_succ]
  rw [List.getElem?_map]
  rw [List.getElem?_eq_getElem hi]
  simp only [Option.map_some']
  rw [List.get_eq_getElem] at hv
  rw [hv]
  rfl

/-- Witness for C7 (amended): the null `name` cell of the concrete scenario
row sits at index 1 of the cells and is empty. -/
theorem c7_none_renders_plain_empty_witness :
    (nodeCells testConfig testSchemaEnv proteinSchema noneProtein)[1]? = some "" :=
  c7_none_renders_plain_empty.2.2.1 testConfig testSchemaEnv proteinSchema
    noneProtein 0 (by decide) (by decide)

/-- Counterexample for C8: the claim predicts that integer-valued properties
render unquoted on edges as well; in the `test_write_edge_data_from_gen`
scenario the integer `level` value 4 renders quote-wrapped on the edge row. -/
theorem c8_counterexample :
    renderEdgeValue testConfig.quote testConfig.array_delimiter (PropValue.vint 4) =
      quoteWrap testConfig.quote "4" ∧
    renderEdgeValue testConfig.quote testConfig.array_delimiter (PropValue.vint 4) ≠ "4" ∧
    alookup (write_edge_data testConfig testSchemaEnv 100 initialState
        [pdEdge "p0" "p1"]).2.files (FileKey.part "GeneToDiseaseAssociation" 0) =
      some "p0;\"T253\";\"4\";p1;PERTURBED_IN_DISEASE\n" := by
  refine ⟨by decide, by decide, by decide⟩

/-- C8 (amended): on node rows integer and float values render as their
decimal text unquoted, strings render wrapped in the configured quote
character and arrays render as one quote-wrapped cell of elements joined by
the configured array delimiter; on edge rows every present property value,
integers and floats included, is quote-wrapped; concretely, a protein node
row renders its numbers bare while the corresponding edge row quotes them. -/
theorem c8_value_rendering :
    (∀ (q ad : String) (i : Int), renderNodeValue q ad (PropValue.vint i) = toString i) ∧
    (∀ q ad t : String, renderNodeValue q ad (PropValue.vfloat t) = t) ∧
    (∀ q ad s : String, renderNodeValue q ad (PropValue.vstr s) = quoteWrap q s) ∧
    (∀ (q ad : String) (l : List String),
      renderNodeValue q ad (PropValue.varr l) = quoteWrap q (String.intercalate ad l)) ∧
    (∀ (q ad : String) (i : Int),
      renderEdgeValue q ad (PropValue.vint i) = quoteWrap q (toString i)) ∧
    (∀ q ad t : String, renderEdgeValue q ad (PropValue.vfloat t) = quoteWrap q t) ∧
    (∀ q ad s : String, renderEdgeValue q ad (PropValue.vstr s) = quoteWrap q s) ∧
    (alookup (write_node_data testConfig testSchemaEnv 100 initialState
        [proteinNode "p1"]).2.files (FileKey.part "Protein" 0) =
      some "p1;\"StringProperty1\";4.0;9606;\"gene1|gene2\";\"p1\";\"id\";Protein\n") ∧
    (alookup (write_edge_data testConfig testSchemaEnv 100 initialState
        [pdEdge "p0" "p1"]).2.files (FileKey.part "GeneToDiseaseAssociation" 0) =
      some "p0;\"T253\";\"4\";p1;PERTURBED_IN_DISEASE\n") := by
  exact ⟨fun q ad i => rfl, fun q ad t => rfl, fun q ad s => rfl, fun q ad l => rfl,
    fun q ad i => rfl, fun q ad t => rfl, fun q ad s => rfl, by decide, by decide⟩

/-! ## Permutation invariance of the encoder (claim C4) -/

theorem alookup_perm {β : Type} (k : String) :
    ∀ {l₁ l₂ : List (String × β)}, l₁.Perm l₂ →
      (l₁.map Prod.fst).Nodup → alookup l₁ k = alookup l₂ k := by
  intro l₁ l₂ hp
  induction hp with
  | nil => intro _; rfl
  | cons x h ih =>
    intro hnd
    simp only [alookup]
    by_cases hx : x.1 = k
    · simp [hx]
    · simp only [if_neg hx]
      exact ih (List.nodup_cons.mp (by simpa using hnd)).2
  | swap x y l =>
    intro hnd
    have hxy : ¬ y.1 = x.1 := by
      simp only [List.map_cons, List.nodup_cons] at hnd
      intro he
      exact hnd.1 (by rw [he]; exact List.mem_cons_self _ _)
    simp only [alookup]
    by_cases hy : y.1 = k
    · have hx : ¬ x.1 = k := fun he => hxy (hy.trans he.symm)
      simp [hy, hx]
    · simp [hy]
  | trans h1 _ ih1 ih2 =>
    intro hnd
    exact (ih1 hnd).trans (ih2 (((h1.map Prod.fst).nodup_iff).mp hnd))

theorem lookupValue_perm {props props' : List (String × PropValue)}
    (hp : props.Perm props') (hnd : (props.map Prod.fst).Nodup) (k : String) :
    lookupValue props k = lookupValue props' k := by
  unfold lookupValue
  rw [alookup_perm k hp hnd]

theorem keysMatch_iff {a b : List String} :
    keysMatch a b = true ↔ (∀ k ∈ a, k ∈ b) ∧ (∀ k ∈ b, k ∈ a) := by
  simp [keysMatch, List.all_eq_true]

theorem keysMatch_perm {a a' b : List String} (h : a.Perm a') :
    keysMatch a b = keysMatch a' b := by
  cases hm : keysMatch a' b with
  | true =>
    rw [keysMatch_iff] at hm
    rw [keysMatch_iff]
    exact ⟨fun k hk => hm.1 k (h.mem_iff.mp hk), fun k hk => h.mem_iff.mpr (hm.2 k hk)⟩
  | false =>
    cases hm2 : keysMatch a b with
    | false => rfl
    | true =>
      exfalso
      rw [keysMatch_iff] at hm2
      have : keysMatch a' b = true := by
        rw [keysMatch_iff]
        exact ⟨fun k hk => hm2.1 k (h.mem_iff.mpr hk), fun k hk => h.mem_iff.mp (hm2.2 k hk)⟩
      rw [hm] at this
      exact Bool.false_ne_true this

/-- C4: the node header lists `:ID`, the declared properties in declared
order with their type suffixes, `id`, `preferred_id`, and `:LABEL`; rows and
the conformance check are invariant under any permutation of a node's
property mapping (iteration-order invariance, the keys being unambiguous);
and writing the four `protein` nodes of the concrete scenario from a fresh
engine yields exactly the expected header and exactly one part file holding
the four semicolon-delimited rows. -/
theorem c4_header_and_order_invariance :
    (∀ (C : WriterConfig) (ref : List (String × PKind)),
       nodeHeaderLine C ref = String.intercalate C.delimiter
         ([":ID"] ++ ref.map (fun p => p.1 ++ typeSuffix p.2) ++ ["id", "preferred_id"]
           ++ (if C.strict_mode then strictKeys else []) ++ [":LABEL"])) ∧
    (∀ (C : WriterConfig) (E : SchemaEnv) (ref : List (String × PKind))
       (n : BioCypherNode) (props' : List (String × PropValue)),
       n.properties.Perm props' →
       (n.properties.map Prod.fst).Nodup →
       nodeRow C E ref n = nodeRow C E ref { n with properties := props' } ∧
       nodeConforms C ref n = nodeConforms C ref { n with properties := props' }) ∧
    (alookup (write_nodes testConfig testSchemaEnv 100 initialState
        [proteinNode "p1", proteinNode "p2", proteinNode "p3", proteinNode "p4"]).2.files
        (FileKey.header "Protein") =
      some ":ID;name;score:double;taxon:long;genes:string[];id;preferred_id;:LABEL" ∧
     alookup (write_nodes testConfig testSchemaEnv 100 initialState
        [proteinNode "p1", proteinNode "p2", proteinNode "p3", proteinNode "p4"]).2.files
        (FileKey.part "Protein" 0) =
      some (String.join ([proteinNode "p1", proteinNode "p2", proteinNode "p3",
        proteinNode "p4"].map (nodeRow testConfig testSchemaEnv proteinSchema))) ∧
     alookup (write_nodes testConfig testSchemaEnv 100 initialState
        [proteinNode "p1", proteinNode "p2", proteinNode "p3", proteinNode "p4"]).2.files
        (FileKey.part "Protein" 1) = none) := by
  refine ⟨?_, ?_, by decide, by decide, by decide⟩
  · intro C ref
    rfl
  · intro C E ref n props' hp hnd
    have hl : ∀ k, lookupValue n.properties k = lookupValue props' k :=
      fun k => lookupValue_perm hp hnd k
    constructor
    · simp [nodeRow, nodeCells, hl]
    · have hie : props'.isEmpty = n.properties.isEmpty := by
        have hlen : props'.length = n.properties.length := hp.length_eq.symm
        cases hp' : props' with
        | nil =>
          cases hn' : n.properties with
          | nil => rfl
          | cons b m => rw [hp', hn'] at hlen; simp at hlen
        | cons a l =>
          cases hn' : n.properties with
          | nil => rw [hp', hn'] at hlen; simp at hlen
          | cons b m => rfl
      unfold nodeConforms
      dsimp only
      rw [hie]
      by_cases hc : (n.properties.isEmpty && !C.strict_mode) = true
      · rw [if_pos hc, if_pos hc]
      · rw [if_neg hc, if_neg hc]
        exact keysMatch_perm (hp.map Prod.fst)

/-- Witness for C4: row and conformance invariance at a concrete permuted
property mapping of the null-property scenario node. -/
theorem c4_header_and_order_invariance_witness :
    nodeRow testConfig testSchemaEnv proteinSchema noneProtein =
      nodeRow testConfig testSchemaEnv proteinSchema
        { noneProtein with properties := [("name", PropValue.vnone),
            ("genes", PropValue.vnone), ("score", PropValue.vint 1),
            ("taxon", PropValue.vint 9606)] } :=
  (c4_header_and_order_invariance.2.1 testConfig testSchemaEnv proteinSchema
    noneProtein [("name", PropValue.vnone), ("genes", PropValue.vnone),
      ("score", PropValue.vint 1), ("taxon", PropValue.vint 9606)]
    (by decide) (by decide)).1

/-! ## Batch chunking (claim C3)

`chunksGo` mirrors the batcher's buffering exactly: records accumulate in
`cur` and a full slice of `B` records is emitted as one chunk, the remainder
forming a final partial chunk. -/

def chunksGo {α : Type} (B : Nat) : List α → List α → List (List α)
  | [], [] => []
  | c0 :: cs, [] => [c0 :: cs]
  | cur, a :: rest =>
    if (cur ++ [a]).length = B then (cur ++ [a]) :: chunksGo B [] rest
    else chunksGo B (cur ++ [a]) rest

theorem chunksGo_exact {α : Type} {B : Nat} (hB : 0 < B) :
    ∀ (l cur : List α) (k : Nat), cur.length < B → cur.length + l.length = k * B →
      (chunksGo B cur l).length = k ∧ ∀ ch ∈ chunksGo B cur l, ch.length = B := by
  intro l
  induction l with
  | nil =>
    intro cur k hlt hsum
    simp only [List.length_nil, Nat.add_zero] at hsum
    cases k with
    | zero =>
      simp only [Nat.zero_mul] at hsum
      have hc : cur = [] := List.length_eq_zero.mp hsum
      subst hc
      exact ⟨rfl, by simp [chunksGo]⟩
    | succ k' =>
      exfalso
      rw [Nat.succ_mul] at hsum
      omega
  | cons a rest ih =>
    intro cur k hlt hsum
    simp only [List.length_cons] at hsum
    by_cases hc : (cur ++ [a]).length = B
    · simp only [chunksGo, if_pos hc]
      simp only [List.length_append, List.length_cons, List.length_nil] at hc
      have hk : k ≠ 0 := by
        intro h0
        subst h0
        simp only [Nat.zero_mul] at hsum
        omega
      obtain ⟨k', rfl⟩ : ∃ k', k = k' + 1 := ⟨k - 1, by omega⟩
      rw [Nat.succ_mul] at hsum
      have hrest : (0 : Nat) + rest.length = k' * B := by omega
      have := ih [] k' (by simpa using hB) (by simpa using hrest)
      refine ⟨by simp [this.1], ?_⟩
      intro ch hch
      rcases List.mem_cons.mp hch with h | h
      · rw [h]
        simp only [List.length_append, List.length_cons, List.length_nil]
        omega
      · exact this.2 ch h
    · simp only [chunksGo, if_neg hc]
      have hlt' : (cur ++ [a]).length < B := by
        simp only [List.length_append, List.length_cons, List.length_nil] at hc ⊢
        omega
      exact ih (cur ++ [a]) k hlt' (by simp; omega)

/-! ## Field-preservation helpers for a successful flush -/

theorem writeHeaderIfAbsent_node_part_index (st : BatchWriterState) (s line : String) :
    (writeHeaderIfAbsent st s line).node_part_index = st.node_part_index := by
  unfold writeHeaderIfAbsent
  cases alookup st.files (FileKey.header s) <;> rfl

theorem writeHeaderIfAbsent_seen_node_ids (st : BatchWriterState) (s line : String) :
    (writeHeaderIfAbsent st s line).seen_node_ids = st.seen_node_ids := by
  unfold writeHeaderIfAbsent
  cases alookup st.files (FileKey.header s) <;> rfl

theorem writeHeaderIfAbsent_part_lookup (st : BatchWriterState) (s line : String)
    (s' : String) (i : Nat) :
    alookup (writeHeaderIfAbsent st s line).files (FileKey.part s' i) =
      alookup st.files (FileKey.part s' i) := by
  unfold writeHeaderIfAbsent
  cases alookup st.files (FileKey.header s) with
  | some _ => rfl
  | none => exact alookup_aset_ne _ _ _ _ (fun h => FileKey.noConfusion h)

theorem flushNodeBin_eq {C : WriterConfig} {E : SchemaEnv} {st : BatchWriterState}
    {b : NodeBin} (hne : ¬ b.buf = [])
    (hall : ∀ n ∈ b.buf, nodeConforms C b.refProps n = true) :
    flushNodeBin C E st b = some
      { writeHeaderIfAbsent st b.stem (nodeHeaderLine C b.refProps) with
          files := aset
            (writeHeaderIfAbsent st b.stem (nodeHeaderLine C b.refProps)).files
            (FileKey.part b.stem
              ((alookup (writeHeaderIfAbsent st b.stem
                  (nodeHeaderLine C b.refProps)).node_part_index b.stem).getD 0))
            (String.join (b.buf.map (nodeRow C E b.refProps)))
          node_part_index := aset
            (writeHeaderIfAbsent st b.stem (nodeHeaderLine C b.refProps)).node_part_index
            b.stem
            (((alookup (writeHeaderIfAbsent st b.stem
                (nodeHeaderLine C b.refProps)).node_part_index b.stem).getD 0) + 1)
          node_order := insertNew
            (writeHeaderIfAbsent st b.stem (nodeHeaderLine C b.refProps)).node_order
            b.stem } := by
  unfold flushNodeBin
  rw [if_neg hne, if_pos (List.all_eq_true.mpr hall)]

theorem flushNodeBin_parts {C : WriterConfig} {E : SchemaEnv} {st st' : BatchWriterState}
    {b : NodeBin} {c : Nat}
    (hne : ¬ b.buf = [])
    (hall : ∀ n ∈ b.buf, nodeConforms C b.refProps n = true)
    (hidx : (alookup st.node_part_index b.stem).getD 0 = c)
    (hf : flushNodeBin C E st b = some st') :
    alookup st'.files (FileKey.part b.stem c) =
      some (String.join (b.buf.map (nodeRow C E b.refProps))) ∧
    (∀ i, i ≠ c → alookup st'.files (FileKey.part b.stem i) =
      alookup st.files (FileKey.part b.stem i)) ∧
    (alookup st'.node_part_index b.stem).getD 0 = c + 1 ∧
    st'.seen_node_ids = st.seen_node_ids := by
  rw [flushNodeBin_eq hne hall] at hf
  simp only [Option.some.injEq] at hf
  subst hf
  have hidx' : (alookup (writeHeaderIfAbsent st b.stem
      (nodeHeaderLine C b.refProps)).node_part_index b.stem).getD 0 = c := by
    rw [writeHeaderIfAbsent_node_part_index]
    exact hidx
  refine ⟨?_, ?_, ?_, ?_⟩
  · simp only [hidx']
    rw [alookup_aset_self]
  · intro i hi
    simp only [hidx']
    rw [alookup_aset_ne _ _ _ _ (by intro h; cases h; exact hi rfl)]
    exact writeHeaderIfAbsent_part_lookup st b.stem _ b.stem i
  · simp only [hidx']
    rw [alookup_aset_self]
    rfl
  · exact writeHeaderIfAbsent_seen_node_ids st b.stem _

theorem nodeGo_uniform_sim {C : WriterConfig} {E : SchemaEnv} {B : Nat} {L s : String}
    {r : List (String × PKind)} :
    ∀ (nodes : List BioCypherNode) (st : BatchWriterState) (cur : List BioCypherNode)
      (c : Nat),
      (∀ n ∈ nodes, n.node_label = L) →
      (∀ n ∈ nodes, nodeConforms C r n = true) →
      (∀ n ∈ nodes, (L, n.node_id) ∉ st.seen_node_ids) →
      (nodes.map BioCypherNode.node_id).Nodup →
      (∀ m ∈ cur, nodeConforms C r m = true) →
      cur.length < B →
      (alookup st.node_part_index s).getD 0 = c →
      (∀ i, c ≤ i → alookup st.files (FileKey.part s i) = none) →
      (nodeGo C E B st [⟨L, s, r, cur⟩] nodes).1 = true ∧
      (∀ (j : Nat) (ch : List BioCypherNode), (chunksGo B cur nodes)[j]? = some ch →
        alookup (nodeGo C E B st [⟨L, s, r, cur⟩] nodes).2.files (FileKey.part s (c + j)) =
          some (String.join (ch.map (nodeRow C E r)))) ∧
      (∀ i, c + (chunksGo B cur nodes).length ≤ i →
        alookup (nodeGo C E B st [⟨L, s, r, cur⟩] nodes).2.files (FileKey.part s i) = none) ∧
      (∀ i, i < c →
        alookup (nodeGo C E B st [⟨L, s, r, cur⟩] nodes).2.files (FileKey.part s i) =
          alookup st.files (FileKey.part s i)) := by
  intro nodes
  induction nodes with
  | nil =>
    intro st cur c hL hconf hfresh hnd hcur hlt hidx hfiles
    cases cur with
    | nil =>
      have hval : nodeGo C E B st [⟨L, s, r, []⟩] ([] : List BioCypherNode) = (true, st) := by
        simp [nodeGo, nodeFinal, flushNodeBin]
      rw [hval]
      refine ⟨rfl, ?_, ?_, ?_⟩
      · intro j ch hch
        simp [chunksGo] at hch
      · intro i hi
        exact hfiles i (by simpa [chunksGo] using hi)
      · intro i _
        rfl
    | cons m0 ms =>
      have hne : ¬ (⟨L, s, r, m0 :: ms⟩ : NodeBin).buf = [] := by simp
      have hall : ∀ m ∈ (⟨L, s, r, m0 :: ms⟩ : NodeBin).buf,
          nodeConforms C (⟨L, s, r, m0 :: ms⟩ : NodeBin).refProps m = true := hcur
      cases hf : flushNodeBin C E st ⟨L, s, r, m0 :: ms⟩ with
      | none =>
        exfalso
        rw [flushNodeBin_eq hne hall] at hf
        exact Option.noConfusion hf
      | some st2 =>
        have hparts := flushNodeBin_parts hne hall hidx hf
        have hval : nodeGo C E B st [⟨L, s, r, m0 :: ms⟩] ([] : List BioCypherNode) =
            (true, st2) := by
          show nodeFinal C E st [⟨L, s, r, m0 :: ms⟩] = (true, st2)
          unfold nodeFinal
          rw [hf]
          rfl
        rw [hval]
        refine ⟨rfl, ?_, ?_, ?_⟩
        · intro j ch hch
          simp only [chunksGo] at hch
          cases j with
          | zero =>
            simp only [List.getElem?_cons_zero, Option.some.injEq] at hch
            subst hch
            simpa using hparts.1
          | succ j' =>
            simp at hch
        · intro i hi
          simp only [chunksGo, List.length_singleton] at hi
          rw [hparts.2.1 i (by omega)]
          exact hfiles i (by omega)
        · intro i hi
          rw [hparts.2.1 i (by omega)]
  | cons n0 rest ih =>
    intro st cur c hL hconf hfresh hnd hcur hlt hidx hfiles
    have hl0 : n0.node_label = L := hL n0 (List.mem_cons_self _ _)
    have hfresh0 : ¬ (n0.node_label, n0.node_id) ∈ st.seen_node_ids := by
      rw [hl0]
      exact hfresh n0 (List.mem_cons_self _ _)
    have htb : targetBin E [⟨L, s, r, cur⟩] n0 = ⟨L, s, r, cur ++ [n0]⟩ := by
      unfold targetBin getBin
      rw [if_pos hl0.symm]
    have hnd0 : ¬ n0.node_id ∈ rest.map BioCypherNode.node_id := by
      simp only [List.map_cons, List.nodup_cons] at hnd
      exact hnd.1
    have hndrest : (rest.map BioCypherNode.node_id).Nodup := by
      simp only [List.map_cons, List.nodup_cons] at hnd
      exact hnd.2
    have hfreshrest : ∀ n ∈ rest, (L, n.node_id) ≠ (n0.node_label, n0.node_id) ∧
        (L, n.node_id) ∉ st.seen_node_ids := by
      intro n hn
      refine ⟨?_, hfresh n (List.mem_cons_of_mem _ hn)⟩
      intro hcase
      have hide : n.node_id = n0.node_id := by
        have := congrArg Prod.snd hcase
        simpa using this
      exact hnd0 (hide ▸ List.mem_map_of_mem _ hn)
    have hfreshrest' : ∀ n ∈ rest, (L, n.node_id) ∉ (markNodeSeen st n0).seen_node_ids := by
      intro n hn
      simp only [markNodeSeen, List.mem_cons]
      intro hcase
      rcases hcase with hcase | hcase
      · exact (hfreshrest n hn).1 hcase
      · exact (hfreshrest n hn).2 hcase
    have hcurall : ∀ m ∈ cur ++ [n0], nodeConforms C r m = true := by
      intro m hm
      rcases List.mem_append.mp hm with h | h
      · exact hcur m h
      · simp only [List.mem_singleton] at h
        rw [h]
        exact hconf n0 (List.mem_cons_self _ _)
    by_cases hlen : (targetBin E [⟨L, s, r, cur⟩] n0).buf.length = B
    · have hlenc : (cur ++ [n0]).length = B := by
        rw [htb] at hlen
        exact hlen
      have hne : ¬ (targetBin E [⟨L, s, r, cur⟩] n0).buf = [] := by
        rw [htb]
        simp
      have hall : ∀ m ∈ (targetBin E [⟨L, s, r, cur⟩] n0).buf,
          nodeConforms C (targetBin E [⟨L, s, r, cur⟩] n0).refProps m = true := by
        rw [htb]
        exact hcurall
      have hidx1 : (alookup (markNodeSeen st n0).node_part_index s).getD 0 = c := hidx
      cases hf : flushNodeBin C E (markNodeSeen st n0) (targetBin E [⟨L, s, r, cur⟩] n0) with
      | none =>
        exfalso
        rw [flushNodeBin_eq hne hall] at hf
        exact Option.noConfusion hf
      | some st2 =>
        have hfR := hf
        rw [htb] at hfR
        have hparts := @flushNodeBin_parts C E (markNodeSeen st n0) st2
          ⟨L, s, r, cur ++ [n0]⟩ c (by simp) hcurall hidx1 hfR
        have hstep : nodeGo C E B st [⟨L, s, r, cur⟩] (n0 :: rest) =
            nodeGo C E B st2 [⟨L, s, r, []⟩] rest := by
          simp only [nodeGo]
          rw [if_neg hfresh0, if_pos hlen, hf]
          have hputs : putBin [⟨L, s, r, cur⟩]
              { targetBin E [⟨L, s, r, cur⟩] n0 with buf := [] } = [⟨L, s, r, []⟩] := by
            rw [htb]
            simp [putBin]
          rw [hputs]
        rw [hstep]
        have hseen2 : st2.seen_node_ids = (n0.node_label, n0.node_id) :: st.seen_node_ids := by
          rw [hparts.2.2.2]
          rfl
        have hBpos : 0 < B := by
          have hx := hlenc
          simp only [List.length_append, List.length_cons, List.length_nil] at hx
          omega
        have hIH := ih st2 [] (c + 1)
          (fun n hn => hL n (List.mem_cons_of_mem _ hn))
          (fun n hn => hconf n (List.mem_cons_of_mem _ hn))
          (by
            intro n hn
            rw [hseen2]
            intro hcase
            rcases List.mem_cons.mp hcase with hcase | hcase
            · exact (hfreshrest n hn).1 hcase
            · exact (hfreshrest n hn).2 hcase)
          hndrest
          (by intro m hm; simp at hm)
          (by simpa using hBpos)
          (by
            have := hparts.2.2.1
            simpa using this)
          (by
            intro i hi
            rw [hparts.2.1 i (by omega)]
            exact hfiles i (by omega))
        have hchunk : chunksGo B cur (n0 :: rest) = (cur ++ [n0]) :: chunksGo B [] rest := by
          simp only [chunksGo, if_pos hlenc]
        rw [hchunk]
        refine ⟨hIH.1, ?_, ?_, ?_⟩
        · intro j ch hch
          cases j with
          | zero =>
            simp only [List.getElem?_cons_zero, Option.some.injEq] at hch
            subst hch
            rw [Nat.add_zero]
            rw [hIH.2.2.2 c (by omega)]
            simpa using hparts.1
          | succ j' =>
            simp only [List.getElem?_cons_succ] at hch
            have harith : c + (j' + 1) = (c + 1) + j' := by omega
            rw [harith]
            exact hIH.2.1 j' ch hch
        · intro i hi
          simp only [List.length_cons] at hi
          exact hIH.2.2.1 i (by omega)
        · intro i hi
          rw [hIH.2.2.2 i (by omega)]
          rw [hparts.2.1 i (by omega)]
          rfl
    · have hlenc : ¬ (cur ++ [n0]).length = B := by
        rw [htb] at hlen
        exact hlen
      have hstep : nodeGo C E B st [⟨L, s, r, cur⟩] (n0 :: rest) =
          nodeGo C E B (markNodeSeen st n0) [⟨L, s, r, cur ++ [n0]⟩] rest := by
        simp only [nodeGo]
        rw [if_neg hfresh0, if_neg hlen]
        have hputs : putBin [⟨L, s, r, cur⟩] (targetBin E [⟨L, s, r, cur⟩] n0) =
            [⟨L, s, r, cur ++ [n0]⟩] := by
          rw [htb]
          simp [putBin]
        rw [hputs]
      rw [hstep]
      have hIH := ih (markNodeSeen st n0) (cur ++ [n0]) c
        (fun n hn => hL n (List.mem_cons_of_mem _ hn))
        (fun n hn => hconf n (List.mem_cons_of_mem _ hn))
        hfreshrest'
        hndrest
        hcurall
        (by
          simp only [List.length_append, List.length_cons, List.length_nil] at hlenc ⊢
          omega)
        hidx
        hfiles
      have hchunk : chunksGo B cur (n0 :: rest) = chunksGo B (cur ++ [n0]) rest := by
        simp only [chunksGo, if_neg hlenc]
      rw [hchunk]
      exact hIH

theorem nodeGo_empty_bin_eq {C : WriterConfig} {E : SchemaEnv} {B : Nat} {L s : String}
    {r : List (String × PKind)} :
    ∀ (nodes : List BioCypherNode) (st : BatchWriterState),
      (∀ n ∈ nodes, n.node_label = L) →
      (∀ n ∈ nodes, refPropsFor E n = r) →
      (∀ n ∈ nodes, E.nodeFileStem L n.properties.isEmpty = s) →
      nodeGo C E B st [] nodes = nodeGo C E B st [⟨L, s, r, []⟩] nodes := by
  intro nodes
  induction nodes with
  | nil =>
    intro st _ _ _
    show nodeFinal C E st [] = nodeFinal C E st [⟨L, s, r, []⟩]
    simp [nodeFinal, flushNodeBin]
  | cons n0 rest ih =>
    intro st hL href hstem
    have hl0 : n0.node_label = L := hL n0 (List.mem_cons_self _ _)
    simp only [nodeGo]
    by_cases hdup : (n0.node_label, n0.node_id) ∈ st.seen_node_ids
    · rw [if_pos hdup, if_pos hdup]
      exact ih (dupNodeUpdate st n0) (fun n hn => hL n (List.mem_cons_of_mem _ hn))
        (fun n hn => href n (List.mem_cons_of_mem _ hn))
        (fun n hn => hstem n (List.mem_cons_of_mem _ hn))
    · rw [if_neg hdup, if_neg hdup]
      have htb : targetBin E [] n0 = targetBin E [⟨L, s, r, []⟩] n0 := by
        unfold targetBin getBin
        rw [if_pos hl0.symm]
        show (⟨n0.node_label, E.nodeFileStem n0.node_label n0.properties.isEmpty,
            refPropsFor E n0, [n0]⟩ : NodeBin) = ⟨L, s, r, [] ++ [n0]⟩
        rw [NodeBin.mk.injEq]
        refine ⟨hl0, ?_, href n0 (List.mem_cons_self _ _), by simp⟩
        rw [hl0]
        exact hstem n0 (List.mem_cons_self _ _)
      rw [htb]
      have hpb2 : putBin [] (targetBin E [⟨L, s, r, []⟩] n0) =
          putBin [⟨L, s, r, []⟩] (targetBin E [⟨L, s, r, []⟩] n0) := by
        simp [putBin, targetBin_label, hl0]
      have hpb1 : putBin ([] : List NodeBin)
            { targetBin E [⟨L, s, r, []⟩] n0 with buf := [] } =
          putBin [⟨L, s, r, []⟩] { targetBin E [⟨L, s, r, []⟩] n0 with buf := [] } := by
        simp [putBin, targetBin_label, hl0]
      by_cases hlen : (targetBin E [⟨L, s, r, []⟩] n0).buf.length = B
      · rw [if_pos hlen, if_pos hlen, hpb1]
      · rw [if_neg hlen, if_neg hlen, hpb2]

/-- C3: for every uniform node stream for one bucket whose length is an
exact multiple `k * batch_size` of a positive batch size, a write call from
a state whose bucket is fresh succeeds, creates exactly the part files
`000 .. k-1` - each holding exactly `batch_size` rows, one row per record
of the corresponding batch slice - and creates no `(k+1)`-th trailing part
file; the concrete two-bucket interleaved scenario of
`test_accidental_exact_batch_size` (scaled to `k = 2`, `batch_size = 2`)
shows the same for two buckets filled from one interleaved stream. -/
theorem c3_exact_batch_multiple :
    (∀ (C : WriterConfig) (E : SchemaEnv) (B k : Nat) (L s : String)
       (r : List (String × PKind)) (nodes : List BioCypherNode) (st : BatchWriterState),
       0 < B →
       E.nodeProperties L = some r →
       (∀ bl : Bool, E.nodeFileStem L bl = s) →
       (∀ n ∈ nodes, n.node_label = L) →
       (∀ n ∈ nodes, nodeConforms C r n = true) →
       (∀ n ∈ nodes, (L, n.node_id) ∉ st.seen_node_ids) →
       (nodes.map BioCypherNode.node_id).Nodup →
       (alookup st.node_part_index s).getD 0 = 0 →
       (∀ i, alookup st.files (FileKey.part s i) = none) →
       nodes.length = k * B →
       (write_node_data C E B st nodes).1 = true ∧
       (∀ j, j < k → ∃ ch : List BioCypherNode,
         (chunksGo B [] nodes)[j]? = some ch ∧ ch.length = B ∧
         alookup (write_node_data C E B st nodes).2.files (FileKey.part s j) =
           some (String.join (ch.map (nodeRow C E r)))) ∧
       (∀ i, k ≤ i →
         alookup (write_node_data C E B st nodes).2.files (FileKey.part s i) = none)) ∧
    ((write_nodes testConfig testSchemaEnv 2 initialState
        [proteinNode "p1", mirnaNode "m1", proteinNode "p2", mirnaNode "m2",
         proteinNode "p3", mirnaNode "m3", proteinNode "p4", mirnaNode "m4"]).1 = true ∧
     (alookup (write_nodes testConfig testSchemaEnv 2 initialState
        [proteinNode "p1", mirnaNode "m1", proteinNode "p2", mirnaNode "m2",
         proteinNode "p3", mirnaNode "m3", proteinNode "p4", mirnaNode "m4"]).2.files
        (FileKey.part "Protein" 0)).isSome = true ∧
     (alookup (write_nodes testConfig testSchemaEnv 2 initialState
        [proteinNode "p1", mirnaNode "m1", proteinNode "p2", mirnaNode "m2",
         proteinNode "p3", mirnaNode "m3", proteinNode "p4", mirnaNode "m4"]).2.files
        (FileKey.part "Protein" 1)).isSome = true ∧
     alookup (write_nodes testConfig testSchemaEnv 2 initialState
        [proteinNode "p1", mirnaNode "m1", proteinNode "p2", mirnaNode "m2",
         proteinNode "p3", mirnaNode "m3", proteinNode "p4", mirnaNode "m4"]).2.files
        (FileKey.part "Protein" 2) = none ∧
     (alookup (write_nodes testConfig testSchemaEnv 2 initialState
        [proteinNode "p1", mirnaNode "m1", proteinNode "p2", mirnaNode "m2",
         proteinNode "p3", mirnaNode "m3", proteinNode "p4", mirnaNode "m4"]).2.files
        (FileKey.part "MicroRNA" 0)).isSome = true ∧
     (alookup (write_nodes testConfig testSchemaEnv 2 initialState
        [proteinNode "p1", mirnaNode "m1", proteinNode "p2", mirnaNode "m2",
         proteinNode "p3", mirnaNode "m3", proteinNode "p4", mirnaNode "m4"]).2.files
        (FileKey.part "MicroRNA" 1)).isSome = true ∧
     alookup (write_nodes testConfig testSchemaEnv 2 initialState
        [proteinNode "p1", mirnaNode "m1", proteinNode "p2", mirnaNode "m2",
         proteinNode "p3", mirnaNode "m3", proteinNode "p4", mirnaNode "m4"]).2.files
        (FileKey.part "MicroRNA" 2) = none) := by
  constructor
  · intro C E B k L s r nodes st hB hschema hstem hL hconf hfresh hnd hidx hfiles hlen
    have hbridge : write_node_data C E B st nodes = nodeGo C E B st [⟨L, s, r, []⟩] nodes :=
      nodeGo_empty_bin_eq nodes st hL
        (by
          intro n hn
          unfold refPropsFor
          rw [hL n hn, hschema])
        (fun n _ => hstem n.properties.isEmpty)
    have hsim := @nodeGo_uniform_sim C E B L s r nodes st [] 0 hL hconf hfresh hnd
      (by intro m hm; simp at hm) hB hidx (fun i _ => hfiles i)
    have hchunks := chunksGo_exact hB nodes [] k (by simpa using hB)
      (by simpa using hlen)
    rw [hbridge]
    refine ⟨hsim.1, ?_, ?_⟩
    · intro j hj
      have hjlt : j < (chunksGo B [] nodes).length := by rw [hchunks.1]; exact hj
      refine ⟨(chunksGo B [] nodes)[j], List.getElem?_eq_getElem hjlt, ?_, ?_⟩
      · exact hchunks.2 _ (List.getElem_mem hjlt)
      · have := hsim.2.1 j (chunksGo B [] nodes)[j] (List.getElem?_eq_getElem hjlt)
        simpa using this
    · intro i hi
      have := hsim.2.2.1 i (by rw [hchunks.1]; omega)
      exact this
  · refine ⟨by decide, by decide, by decide, by decide, by decide, by decide, by decide⟩

/-- Witness for C3: the general statement instantiated at a two-record
stream with batch size 2, giving exactly one full part file and no second
file. -/
theorem c3_exact_batch_multiple_witness :
    (write_node_data testConfig testSchemaEnv 2 initialState
      [proteinNode "p1", proteinNode "p2"]).1 = true ∧
    alookup (write_node_data testConfig testSchemaEnv 2 initialState
      [proteinNode "p1", proteinNode "p2"]).2.files (FileKey.part "Protein" 1) = none := by
  have h := c3_exact_batch_multiple.1 testConfig testSchemaEnv 2 1 "protein" "Protein"
    proteinSchema [proteinNode "p1", proteinNode "p2"] initialState
    (by decide) (by decide) (by decide) (by decide) (by decide) (by decide)
    (by decide) (by decide) (fun i => rfl) (by decide)
  exact ⟨h.1, h.2.2 1 (by omega)⟩

/-! ## Property-less nodes (claim C10) -/

def coreEq (s t : BatchWriterState) : Prop :=
  s.files = t.files ∧ s.node_part_index = t.node_part_index ∧
  s.edge_part_index = t.edge_part_index ∧ s.node_order = t.node_order ∧
  s.edge_order = t.edge_order ∧ s.seen_node_ids = t.seen_node_ids ∧
  s.seen_edge_ids = t.seen_edge_ids

theorem coreEq_refl (s : BatchWriterState) : coreEq s s :=
  ⟨rfl, rfl, rfl, rfl, rfl, rfl, rfl⟩

theorem coreEq_dupNodeUpdate (s : BatchWriterState) (n : BioCypherNode) :
    coreEq (dupNodeUpdate s n) s :=
  ⟨rfl, rfl, rfl, rfl, rfl, rfl, rfl⟩

theorem coreEq_dupEdgeUpdate (s : BatchWriterState) (e : BioCypherEdge) :
    coreEq (dupEdgeUpdate s e) s :=
  ⟨rfl, rfl, rfl, rfl, rfl, rfl, rfl⟩

theorem coreEq_markNodeSeen {s t : BatchWriterState} (h : coreEq s t) (n : BioCypherNode) :
    coreEq (markNodeSeen s n) (markNodeSeen t n) := by
  obtain ⟨h1, h2, h3, h4, h5, h6, h7⟩ := h
  exact ⟨h1, h2, h3, h4, h5, by simp [markNodeSeen, h6], h7⟩

theorem writeHeaderIfAbsent_coreEq {s t : BatchWriterState} (h : coreEq s t)
    (stem line : String) :
    coreEq (writeHeaderIfAbsent s stem line) (writeHeaderIfAbsent t stem line) := by
  unfold writeHeaderIfAbsent
  rw [h.1]
  cases alookup t.files (FileKey.header stem) with
  | some _ => exact h
  | none =>
    obtain ⟨h1, h2, h3, h4, h5, h6, h7⟩ := h
    exact ⟨by simp [h1], by simp [h2], by simp [h3], by simp [h4], by simp [h5],
      by simp [h6], by simp [h7]⟩

theorem flushNodeBin_coreEq {C : WriterConfig} {E : SchemaEnv} {s t : BatchWriterState}
    (h : coreEq s t) (b : NodeBin) :
    (flushNodeBin C E s b = none ∧ flushNodeBin C E t b = none) ∨
    (∃ s' t', flushNodeBin C E s b = some s' ∧ flushNodeBin C E t b = some t' ∧
      coreEq s' t') := by
  unfold flushNodeBin
  by_cases hb : b.buf = []
  · rw [if_pos hb, if_pos hb]
    exact Or.inr ⟨s, t, rfl, rfl, h⟩
  · rw [if_neg hb, if_neg hb]
    by_cases hall : b.buf.all (nodeConforms C b.refProps) = true
    · rw [if_pos hall, if_pos hall]
      refine Or.inr ⟨_, _, rfl, rfl, ?_⟩
      have hw := writeHeaderIfAbsent_coreEq h b.stem (nodeHeaderLine C b.refProps)
      obtain ⟨h1, h2, h3, h4, h5, h6, h7⟩ := hw
      exact ⟨by simp [h1, h2], by simp [h2], by simp [h3], by simp [h4, h2],
        by simp [h5], by simp [h6], by simp [h7]⟩
    · rw [if_neg hall, if_neg hall]
      exact Or.inl ⟨rfl, rfl⟩

theorem nodeFinal_coreEq {C : WriterConfig} {E : SchemaEnv} :
    ∀ (bins : List NodeBin) (s t : BatchWriterState), coreEq s t →
      (nodeFinal C E s bins).1 = (nodeFinal C E t bins).1 ∧
      coreEq (nodeFinal C E s bins).2 (nodeFinal C E t bins).2 := by
  intro bins
  induction bins with
  | nil => intro s t h; exact ⟨rfl, h⟩
  | cons b r ih =>
    intro s t h
    unfold nodeFinal
    rcases flushNodeBin_coreEq h b with ⟨hs, ht⟩ | ⟨s', t', hs, ht, h'⟩
    · rw [hs, ht]
      exact ⟨rfl, h⟩
    · rw [hs, ht]
      exact ih s' t' h'

theorem nodeGo_coreEq {C : WriterConfig} {E : SchemaEnv} {batch : Nat} :
    ∀ (nodes : List BioCypherNode) (s t : BatchWriterState) (bins : List NodeBin),
      coreEq s t →
      (nodeGo C E batch s bins nodes).1 = (nodeGo C E batch t bins nodes).1 ∧
      coreEq (nodeGo C E batch s bins nodes).2 (nodeGo C E batch t bins nodes).2 := by
  intro nodes
  induction nodes with
  | nil =>
    intro s t bins h
    exact nodeFinal_coreEq bins s t h
  | cons n0 rest ih =>
    intro s t bins h
    simp only [nodeGo]
    by_cases hdup : (n0.node_label, n0.node_id) ∈ t.seen_node_ids
    · have hdups : (n0.node_label, n0.node_id) ∈ s.seen_node_ids := by
        rw [h.2.2.2.2.2.1]
        exact hdup
      rw [if_pos hdup, if_pos hdups]
      apply ih
      obtain ⟨h1, h2, h3, h4, h5, h6, h7⟩ := h
      exact ⟨h1, h2, h3, h4, h5, h6, h7⟩
    · have hdups : ¬ (n0.node_label, n0.node_id) ∈ s.seen_node_ids := by
        rw [h.2.2.2.2.2.1]
        exact hdup
      rw [if_neg hdup, if_neg hdups]
      by_cases hlen : (targetBin E bins n0).buf.length = batch
      · rw [if_pos hlen, if_pos hlen]
        rcases flushNodeBin_coreEq (coreEq_markNodeSeen h n0) (targetBin E bins n0) with
          ⟨hs, ht⟩ | ⟨s', t', hs, ht, h'⟩
        · rw [hs, ht]
          exact ⟨rfl, coreEq_markNodeSeen h n0⟩
        · rw [hs, ht]
          exact ih s' t' _ h'
      · rw [if_neg hlen, if_neg hlen]
        exact ih _ _ _ (coreEq_markNodeSeen h n0)

theorem nodeFinal_dups {C : WriterConfig} {E : SchemaEnv} :
    ∀ (bins : List NodeBin) (st : BatchWriterState),
      (nodeFinal C E st bins).2.duplicate_node_types = st.duplicate_node_types ∧
      (nodeFinal C E st bins).2.duplicate_node_ids = st.duplicate_node_ids := by
  intro bins
  induction bins with
  | nil => intro st; exact ⟨rfl, rfl⟩
  | cons b r ih =>
    intro st
    unfold nodeFinal
    cases hf : flushNodeBin C E st b with
    | none => exact ⟨rfl, rfl⟩
    | some st1 =>
      exact ⟨(ih st1).1.trans (flushNodeBin_frame hf).2.2.1,
        (ih st1).2.trans (flushNodeBin_frame hf).2.2.2.1⟩

theorem nodeGo_dups_mono {C : WriterConfig} {E : SchemaEnv} {batch : Nat} :
    ∀ (nodes : List BioCypherNode) (st : BatchWriterState) (bins : List NodeBin) (x : String),
      (x ∈ st.duplicate_node_types →
        x ∈ (nodeGo C E batch st bins nodes).2.duplicate_node_types) ∧
      (x ∈ st.duplicate_node_ids →
        x ∈ (nodeGo C E batch st bins nodes).2.duplicate_node_ids) := by
  intro nodes
  induction nodes with
  | nil =>
    intro st bins x
    simp only [nodeGo]
    rw [(nodeFinal_dups bins st).1, (nodeFinal_dups bins st).2]
    exact ⟨id, id⟩
  | cons n0 rest ih =>
    intro st bins x
    simp only [nodeGo]
    by_cases hdup : (n0.node_label, n0.node_id) ∈ st.seen_node_ids
    · rw [if_pos hdup]
      refine ⟨fun hx => (ih _ _ x).1 ?_, fun hx => (ih _ _ x).2 ?_⟩
      · exact mem_insertNew_of_mem _ _ _ hx
      · exact mem_insertNew_of_mem _ _ _ hx
    · rw [if_neg hdup]
      by_cases hlen : (targetBin E bins n0).buf.length = batch
      · rw [if_pos hlen]
        cases hf : flushNodeBin C E (markNodeSeen st n0) (targetBin E bins n0) with
        | none => exact ⟨id, id⟩
        | some st2 =>
          refine ⟨fun hx => (ih _ _ x).1 ?_, fun hx => (ih _ _ x).2 ?_⟩
          · rw [(flushNodeBin_frame hf).2.2.1]
            exact hx
          · rw [(flushNodeBin_frame hf).2.2.2.1]
            exact hx
      · rw [if_neg hlen]
        exact ⟨fun hx => (ih _ _ x).1 hx, fun hx => (ih _ _ x).2 hx⟩

theorem nodeGo_dup_skip {C : WriterConfig} {E : SchemaEnv} {batch : Nat} :
    ∀ (l₁ : List BioCypherNode) (st : BatchWriterState) (bins : List NodeBin)
      (n : BioCypherNode) (l₂ : List BioCypherNode),
      ((n.node_label, n.node_id) ∈ st.seen_node_ids ∨
        ∃ m ∈ l₁, (m.node_label, m.node_id) = (n.node_label, n.node_id)) →
      (nodeGo C E batch st bins (l₁ ++ n :: l₂)).1 =
        (nodeGo C E batch st bins (l₁ ++ l₂)).1 ∧
      coreEq (nodeGo C E batch st bins (l₁ ++ n :: l₂)).2
        (nodeGo C E batch st bins (l₁ ++ l₂)).2 := by
  intro l₁
  induction l₁ with
  | nil =>
    intro st bins n l₂ hseen
    rcases hseen with hseen | hseen
    · simp only [List.nil_append]
      simp only [nodeGo]
      rw [if_pos hseen]
      exact nodeGo_coreEq l₂ _ _ bins (coreEq_dupNodeUpdate st n)
    · obtain ⟨m, hm, _⟩ := hseen
      simp at hm
  | cons h0 r ih =>
    intro st bins n l₂ hseen
    simp only [List.cons_append]
    simp only [nodeGo]
    by_cases hdup : (h0.node_label, h0.node_id) ∈ st.seen_node_ids
    · rw [if_pos hdup, if_pos hdup]
      apply ih
      rcases hseen with hseen | ⟨m, hm, hk⟩
      · exact Or.inl hseen
      · rcases List.mem_cons.mp hm with he | hr
        · subst he
          exact Or.inl (by rw [← hk]; exact hdup)
        · exact Or.inr ⟨m, hr, hk⟩
    · rw [if_neg hdup, if_neg hdup]
      by_cases hlen : (targetBin E bins h0).buf.length = batch
      · rw [if_pos hlen, if_pos hlen]
        cases hf : flushNodeBin C E (markNodeSeen st h0) (targetBin E bins h0) with
        | none => exact ⟨rfl, coreEq_refl _⟩
        | some st2 =>
          apply ih
          have hs2 : st2.seen_node_ids =
              (h0.node_label, h0.node_id) :: st.seen_node_ids :=
            (flushNodeBin_frame hf).1
          rcases hseen with hseen | ⟨m, hm, hk⟩
          · exact Or.inl (by rw [hs2]; exact List.mem_cons_of_mem _ hseen)
          · rcases List.mem_cons.mp hm with he | hr
            · subst he
              exact Or.inl (by rw [hs2, ← hk]; exact List.mem_cons_self _ _)
            · exact Or.inr ⟨m, hr, hk⟩
      · rw [if_neg hlen, if_neg hlen]
        apply ih
        rcases hseen with hseen | ⟨m, hm, hk⟩
        · exact Or.inl (List.mem_cons_of_mem _ hseen)
        · rcases List.mem_cons.mp hm with he | hr
          · subst he
            exact Or.inl (by rw [← hk]; exact List.mem_cons_self _ _)
          · exact Or.inr ⟨m, hr, hk⟩

theorem nodeGo_dup_reported {C : WriterConfig} {E : SchemaEnv} {batch : Nat} :
    ∀ (l₁ : List BioCypherNode) (st : BatchWriterState) (bins : List NodeBin)
      (n : BioCypherNode) (l₂ : List BioCypherNode),
      ((n.node_label, n.node_id) ∈ st.seen_node_ids ∨
        ∃ m ∈ l₁, (m.node_label, m.node_id) = (n.node_label, n.node_id)) →
      (nodeGo C E batch st bins (l₁ ++ n :: l₂)).1 = true →
      n.node_label ∈ (nodeGo C E batch st bins (l₁ ++ n :: l₂)).2.duplicate_node_types ∧
      n.node_id ∈ (nodeGo C E batch st bins (l₁ ++ n :: l₂)).2.duplicate_node_ids := by
  intro l₁
  induction l₁ with
  | nil =>
    intro st bins n l₂ hseen hres
    rcases hseen with hseen | hseen
    · simp only [List.nil_append] at hres ⊢
      simp only [nodeGo] at hres ⊢
      rw [if_pos hseen]
      exact ⟨(nodeGo_dups_mono l₂ (dupNodeUpdate st n) bins n.node_label).1
          (mem_insertNew_self st.duplicate_node_types n.node_label),
        (nodeGo_dups_mono l₂ (dupNodeUpdate st n) bins n.node_id).2
          (mem_insertNew_self st.duplicate_node_ids n.node_id)⟩
    · obtain ⟨m, hm, _⟩ := hseen
      simp at hm
  | cons h0 r ih =>
    intro st bins n l₂ hseen hres
    simp only [List.cons_append] at hres ⊢
    simp only [nodeGo] at hres ⊢
    by_cases hdup : (h0.node_label, h0.node_id) ∈ st.seen_node_ids
    · rw [if_pos hdup] at hres ⊢
      refine ih _ _ _ _ ?_ hres
      rcases hseen with hseen | ⟨m, hm, hk⟩
      · exact Or.inl hseen
      · rcases List.mem_cons.mp hm with he | hr
        · subst he
          exact Or.inl (by rw [← hk]; exact hdup)
        · exact Or.inr ⟨m, hr, hk⟩
    · rw [if_neg hdup] at hres ⊢
      by_cases hlen : (targetBin E bins h0).buf.length = batch
      · rw [if_pos hlen] at hres ⊢
        cases hf : flushNodeBin C E (markNodeSeen st h0) (targetBin E bins h0) with
        | none =>
          rw [hf] at hres
          exact absurd hres Bool.false_ne_true
        | some st2 =>
          rw [hf] at hres
          refine ih _ _ _ _ ?_ hres
          have hs2 : st2.seen_node_ids =
              (h0.node_label, h0.node_id) :: st.seen_node_ids :=
            (flushNodeBin_frame hf).1
          rcases hseen with hseen | ⟨m, hm, hk⟩
          · exact Or.inl (by rw [hs2]; exact List.mem_cons_of_mem _ hseen)
          · rcases List.mem_cons.mp hm with he | hr
            · subst he
              exact Or.inl (by rw [hs2, ← hk]; exact List.mem_cons_self _ _)
            · exact Or.inr ⟨m, hr, hk⟩
      · rw [if_neg hlen] at hres ⊢
        refine ih _ _ _ _ ?_ hres
        rcases hseen with hseen | ⟨m, hm, hk⟩
        · exact Or.inl (List.mem_cons_of_mem _ hseen)
        · rcases List.mem_cons.mp hm with he | hr
          · subst he
            exact Or.inl (by rw [← hk]; exact List.mem_cons_self _ _)
          · exact Or.inr ⟨m, hr, hk⟩

theorem coreEq_markEdgeSeen {s t : BatchWriterState} (h : coreEq s t) (e : BioCypherEdge) :
    coreEq (markEdgeSeen s e) (markEdgeSeen t e) := by
  obtain ⟨h1, h2, h3, h4, h5, h6, h7⟩ := h
  exact ⟨h1, h2, h3, h4, h5, h6, by simp [markEdgeSeen, h7]⟩

theorem flushEdgeBin_frame {C : WriterConfig}
    {st : BatchWriterState} {b : EdgeBin} {st' : BatchWriterState}
    (h : flushEdgeBin C st b = some st') :
    st'.seen_edge_ids = st.seen_edge_ids ∧
    st'.seen_node_ids = st.seen_node_ids ∧
    st'.duplicate_node_types = st.duplicate_node_types ∧
    st'.duplicate_node_ids = st.duplicate_node_ids ∧
    st'.duplicate_edge_types = st.duplicate_edge_types ∧
    st'.duplicate_edge_ids = st.duplicate_edge_ids ∧
    st'.node_part_index = st.node_part_index ∧
    st'.node_order = st.node_order := by
  unfold flushEdgeBin at h
  by_cases hb : b.buf = []
  · rw [if_pos hb] at h
    cases h
    exact ⟨rfl, rfl, rfl, rfl, rfl, rfl, rfl, rfl⟩
  · rw [if_neg hb] at h
    by_cases hall : b.buf.all (edgeConforms b.refProps) = true
    · rw [if_pos hall] at h
      simp only [Option.some.injEq] at h
      subst h
      have hw := writeHeaderIfAbsent_frame st b.stem (edgeHeaderLine C b.refProps)
      exact ⟨hw.2.1, hw.1, hw.2.2.1, hw.2.2.2.1, hw.2.2.2.2.1, hw.2.2.2.2.2.1,
        hw.2.2.2.2.2.2.2.2.1, hw.2.2.2.2.2.2.2.2.2⟩
    · rw [if_neg hall] at h
      simp at h

theorem flushEdgeBin_coreEq {C : WriterConfig} {s t : BatchWriterState}
    (h : coreEq s t) (b : EdgeBin) :
    (flushEdgeBin C s b = none ∧ flushEdgeBin C t b = none) ∨
    (∃ s' t', flushEdgeBin C s b = some s' ∧ flushEdgeBin C t b = some t' ∧
      coreEq s' t') := by
  unfold flushEdgeBin
  by_cases hb : b.buf = []
  · rw [if_pos hb, if_pos hb]
    exact Or.inr ⟨s, t, rfl, rfl, h⟩
  · rw [if_neg hb, if_neg hb]
    by_cases hall : b.buf.all (edgeConforms b.refProps) = true
    · rw [if_pos hall, if_pos hall]
      refine Or.inr ⟨_, _, rfl, rfl, ?_⟩
      have hw := writeHeaderIfAbsent_coreEq h b.stem (edgeHeaderLine C b.refProps)
      obtain ⟨h1, h2, h3, h4, h5, h6, h7⟩ := hw
      exact ⟨by simp [h1, h3], by simp [h2], by simp [h3], by simp [h4],
        by simp [h5, h3], by simp [h6], by simp [h7]⟩
    · rw [if_neg hall, if_neg hall]
      exact Or.inl ⟨rfl, rfl⟩

theorem edgeFinal_coreEq {C : WriterConfig} :
    ∀ (bins : List EdgeBin) (s t : BatchWriterState), coreEq s t →
      (edgeFinal C s bins).1 = (edgeFinal C t bins).1 ∧
      coreEq (edgeFinal C s bins).2 (edgeFinal C t bins).2 := by
  intro bins
  induction bins with
  | nil => intro s t h; exact ⟨rfl, h⟩
  | cons b r ih =>
    intro s t h
    unfold edgeFinal
    rcases flushEdgeBin_coreEq h b with ⟨hs, ht⟩ | ⟨s', t', hs, ht, h'⟩
    · rw [hs, ht]
      exact ⟨rfl, h⟩
    · rw [hs, ht]
      exact ih s' t' h'

theorem edgeGo_coreEq {C : WriterConfig} {E : SchemaEnv} {batch : Nat} :
    ∀ (edges : List BioCypherEdge) (s t : BatchWriterState) (bins : List EdgeBin),
      coreEq s t →
      (edgeGo C E batch s bins edges).1 = (edgeGo C E batch t bins edges).1 ∧
      coreEq (edgeGo C E batch s bins edges).2 (edgeGo C E batch t bins edges).2 := by
  intro edges
  induction edges with
  | nil =>
    intro s t bins h
    exact edgeFinal_coreEq bins s t h
  | cons e0 rest ih =>
    intro s t bins h
    simp only [edgeGo]
    by_cases hdup : edgeKey e0 ∈ t.seen_edge_ids
    · have hdups : edgeKey e0 ∈ s.seen_edge_ids := by
        rw [h.2.2.2.2.2.2]
        exact hdup
      rw [if_pos hdup, if_pos hdups]
      apply ih
      obtain ⟨h1, h2, h3, h4, h5, h6, h7⟩ := h
      exact ⟨h1, h2, h3, h4, h5, h6, h7⟩
    · have hdups : ¬ edgeKey e0 ∈ s.seen_edge_ids := by
        rw [h.2.2.2.2.2.2]
        exact hdup
      rw [if_neg hdup, if_neg hdups]
      by_cases hlen : (targetEBin E bins e0).buf.length = batch
      · rw [if_pos hlen, if_pos hlen]
        rcases flushEdgeBin_coreEq (coreEq_markEdgeSeen h e0) (targetEBin E bins e0) with
          ⟨hs, ht⟩ | ⟨s', t', hs, ht, h'⟩
        · rw [hs, ht]
          exact ⟨rfl, coreEq_markEdgeSeen h e0⟩
        · rw [hs, ht]
          exact ih s' t' _ h'
      · rw [if_neg hlen, if_neg hlen]
        exact ih _ _ _ (coreEq_markEdgeSeen h e0)

theorem edgeFinal_dups {C : WriterConfig} :
    ∀ (bins : List EdgeBin) (st : BatchWriterState),
      (edgeFinal C st bins).2.duplicate_edge_types = st.duplicate_edge_types ∧
      (edgeFinal C st bins).2.duplicate_edge_ids = st.duplicate_edge_ids := by
  intro bins
  induction bins with
  | nil => intro st; exact ⟨rfl, rfl⟩
  | cons b r ih =>
    intro st
    unfold edgeFinal
    cases hf : flushEdgeBin C st b with
    | none => exact ⟨rfl, rfl⟩
    | some st1 =>
      exact ⟨(ih st1).1.trans (flushEdgeBin_frame hf).2.2.2.2.1,
        (ih st1).2.trans (flushEdgeBin_frame hf).2.2.2.2.2.1⟩

theorem edgeGo_dups_mono {C : WriterConfig} {E : SchemaEnv} {batch : Nat} :
    ∀ (edges : List BioCypherEdge) (st : BatchWriterState) (bins : List EdgeBin) (x : String),
      (x ∈ st.duplicate_edge_types →
        x ∈ (edgeGo C E batch st bins edges).2.duplicate_edge_types) ∧
      (x ∈ st.duplicate_edge_ids →
        x ∈ (edgeGo C E batch st bins edges).2.duplicate_edge_ids) := by
  intro edges
  induction edges with
  | nil =>
    intro st bins x
    simp only [edgeGo]
    rw [(edgeFinal_dups bins st).1, (edgeFinal_dups bins st).2]
    exact ⟨id, id⟩
  | cons e0 rest ih =>
    intro st bins x
    simp only [edgeGo]
    by_cases hdup : edgeKey e0 ∈ st.seen_edge_ids
    · rw [if_pos hdup]
      refine ⟨fun hx => (ih _ _ x).1 ?_, fun hx => (ih _ _ x).2 ?_⟩
      · exact mem_insertNew_of_mem _ _ _ hx
      · exact mem_insertNew_of_mem _ _ _ hx
    · rw [if_neg hdup]
      by_cases hlen : (targetEBin E bins e0).buf.length = batch
      · rw [if_pos hlen]
        cases hf : flushEdgeBin C (markEdgeSeen st e0) (targetEBin E bins e0) with
        | none => exact ⟨id, id⟩
        | some st2 =>
          refine ⟨fun hx => (ih _ _ x).1 ?_, fun hx => (ih _ _ x).2 ?_⟩
          · rw [(flushEdgeBin_frame hf).2.2.2.2.1]
            exact hx
          · rw [(flushEdgeBin_frame hf).2.2.2.2.2.1]
            exact hx
      · rw [if_neg hlen]
        exact ⟨fun hx => (ih _ _ x).1 hx, fun hx => (ih _ _ x).2 hx⟩

theorem edgeGo_dup_skip {C : WriterConfig} {E : SchemaEnv} {batch : Nat} :
    ∀ (l₁ : List BioCypherEdge) (st : BatchWriterState) (bins : List EdgeBin)
      (e : BioCypherEdge) (l₂ : List BioCypherEdge),
      (edgeKey e ∈ st.seen_edge_ids ∨ ∃ m ∈ l₁, edgeKey m = edgeKey e) →
      (edgeGo C E batch st bins (l₁ ++ e :: l₂)).1 =
        (edgeGo C E batch st bins (l₁ ++ l₂)).1 ∧
      coreEq (edgeGo C E batch st bins (l₁ ++ e :: l₂)).2
        (edgeGo C E batch st bins (l₁ ++ l₂)).2 := by
  intro l₁
  induction l₁ with
  | nil =>
    intro st bins e l₂ hseen
    rcases hseen with hseen | hseen
    · simp only [List.nil_append]
      simp only [edgeGo]
      rw [if_pos hseen]
      exact edgeGo_coreEq l₂ _ _ bins (coreEq_dupEdgeUpdate st e)
    · obtain ⟨m, hm, _⟩ := hseen
      simp at hm
  | cons h0 r ih =>
    intro st bins e l₂ hseen
    simp only [List.cons_append]
    simp only [edgeGo]
    by_cases hdup : edgeKey h0 ∈ st.seen_edge_ids
    · rw [if_pos hdup, if_pos hdup]
      apply ih
      rcases hseen with hseen | ⟨m, hm, hk⟩
      · exact Or.inl hseen
      · rcases List.mem_cons.mp hm with he | hr
        · subst he
          exact Or.inl (by rw [← hk]; exact hdup)
        · exact Or.inr ⟨m, hr, hk⟩
    · rw [if_neg hdup, if_neg hdup]
      by_cases hlen : (targetEBin E bins h0).buf.length = batch
      · rw [if_pos hlen, if_pos hlen]
        cases hf : flushEdgeBin C (markEdgeSeen st h0) (targetEBin E bins h0) with
        | none => exact ⟨rfl, coreEq_refl _⟩
        | some st2 =>
          apply ih
          have hs2 : st2.seen_edge_ids = edgeKey h0 :: st.seen_edge_ids :=
            (flushEdgeBin_frame hf).1
          rcases hseen with hseen | ⟨m, hm, hk⟩
          · exact Or.inl (by rw [hs2]; exact List.mem_cons_of_mem _ hseen)
          · rcases List.mem_cons.mp hm with he | hr
            · subst he
              exact Or.inl (by rw [hs2, ← hk]; exact List.mem_cons_self _ _)
            · exact Or.inr ⟨m, hr, hk⟩
      · rw [if_neg hlen, if_neg hlen]
        apply ih
        rcases hseen with hseen | ⟨m, hm, hk⟩
        · exact Or.inl (List.mem_cons_of_mem _ hseen)
        · rcases List.mem_cons.mp hm with he | hr
          · subst he
            exact Or.inl (by rw [← hk]; exact List.mem_cons_self _ _)
          · exact Or.inr ⟨m, hr, hk⟩

theorem edgeGo_dup_reported {C : WriterConfig} {E : SchemaEnv} {batch : Nat} :
    ∀ (l₁ : List BioCypherEdge) (st : BatchWriterState) (bins : List EdgeBin)
      (e : BioCypherEdge) (l₂ : List BioCypherEdge),
      (edgeKey e ∈ st.seen_edge_ids ∨ ∃ m ∈ l₁, edgeKey m = edgeKey e) →
      (edgeGo C E batch st bins (l₁ ++ e :: l₂)).1 = true →
      e.input_relationship_label ∈
        (edgeGo C E batch st bins (l₁ ++ e :: l₂)).2.duplicate_edge_types ∧
      e.source_id ++ "_" ++ e.target_id ∈
        (edgeGo C E batch st bins (l₁ ++ e :: l₂)).2.duplicate_edge_ids := by
  intro l₁
  induction l₁ with
  | nil =>
    intro st bins e l₂ hseen hres
    rcases hseen with hseen | hseen
    · simp only [List.nil_append] at hres ⊢
      simp only [edgeGo] at hres ⊢
      rw [if_pos hseen]
      exact ⟨(edgeGo_dups_mono l₂ (dupEdgeUpdate st e) bins e.input_relationship_label).1
          (mem_insertNew_self st.duplicate_edge_types e.input_relationship_label),
        (edgeGo_dups_mono l₂ (dupEdgeUpdate st e) bins (e.source_id ++ "_" ++ e.target_id)).2
          (mem_insertNew_self st.duplicate_edge_ids (e.source_id ++ "_" ++ e.target_id))⟩
    · obtain ⟨m, hm, _⟩ := hseen
      simp at hm
  | cons h0 r ih =>
    intro st bins e l₂ hseen hres
    simp only [List.cons_append] at hres ⊢
    simp only [edgeGo] at hres ⊢
    by_cases hdup : edgeKey h0 ∈ st.seen_edge_ids
    · rw [if_pos hdup] at hres ⊢
      refine ih _ _ _ _ ?_ hres
      rcases hseen with hseen | ⟨m, hm, hk⟩
      · exact Or.inl hseen
      · rcases List.mem_cons.mp hm with he | hr
        · subst he
          exact Or.inl (by rw [← hk]; exact hdup)
        · exact Or.inr ⟨m, hr, hk⟩
    · rw [if_neg hdup] at hres ⊢
      by_cases hlen : (targetEBin E bins h0).buf.length = batch
      · rw [if_pos hlen] at hres ⊢
        cases hf : flushEdgeBin C (markEdgeSeen st h0) (targetEBin E bins h0) with
        | none =>
          rw [hf] at hres
          exact absurd hres Bool.false_ne_true
        | some st2 =>
          rw [hf] at hres
          refine ih _ _ _ _ ?_ hres
          have hs2 : st2.seen_edge_ids = edgeKey h0 :: st.seen_edge_ids :=
            (flushEdgeBin_frame hf).1
          rcases hseen with hseen | ⟨m, hm, hk⟩
          · exact Or.inl (by rw [hs2]; exact List.mem_cons_of_mem _ hseen)
          · rcases List.mem_cons.mp hm with he | hr
            · subst he
              exact Or.inl (by rw [hs2, ← hk]; exact List.mem_cons_self _ _)
            · exact Or.inr ⟨m, hr, hk⟩
      · rw [if_neg hlen] at hres ⊢
        refine ih _ _ _ _ ?_ hres
        rcases hseen with hseen | ⟨m, hm, hk⟩
        · exact Or.inl (List.mem_cons_of_mem _ hseen)
        · rcases List.mem_cons.mp hm with he | hr
          · subst he
            exact Or.inl (by rw [← hk]; exact List.mem_cons_self _ _)
          · exact Or.inr ⟨m, hr, hk⟩

/-- C2: in every node or edge write call (with the duplicate set possibly
carrying entries from earlier calls on the same writer instance), an
occurrence whose duplicate key - the (type, identifier) pair for nodes, the
(input relationship label, source_id ++ "_" ++ target_id) pair for edges -
was already seen, either in the carried-over duplicate set or earlier in the
same stream, is excluded from the output: the call's outcome, its files, its
part-file rotation indices and its bucket order are the same as for the
stream with that occurrence removed, while the suppressed occurrence's type
and identifier (for nodes) or relationship label and id pair (for edges) are
returned by `get_duplicate_nodes` / `get_duplicate_edges`.  The concrete
scenarios of `test_duplicate_id` (two identical `p1` proteins yield one row
and the duplicate report `protein` / `p1`) and of `test_get_duplicate_edges`
(a repeated `p1 -> p2` disease edge is reported as
`gene_PERTURBED_IN_DISEASE_disease` / `p1_p2`) come out exactly. -/
theorem c2_duplicate_suppression :
    (∀ (C : WriterConfig) (E : SchemaEnv) (batch : Nat) (st : BatchWriterState)
       (l₁ l₂ : List BioCypherNode) (n : BioCypherNode),
       ((n.node_label, n.node_id) ∈ st.seen_node_ids ∨
         ∃ m ∈ l₁, (m.node_label, m.node_id) = (n.node_label, n.node_id)) →
       ((write_node_data C E batch st (l₁ ++ n :: l₂)).1 =
           (write_node_data C E batch st (l₁ ++ l₂)).1 ∧
         (write_node_data C E batch st (l₁ ++ n :: l₂)).2.files =
           (write_node_data C E batch st (l₁ ++ l₂)).2.files ∧
         (write_node_data C E batch st (l₁ ++ n :: l₂)).2.node_part_index =
           (write_node_data C E batch st (l₁ ++ l₂)).2.node_part_index ∧
         (write_node_data C E batch st (l₁ ++ n :: l₂)).2.node_order =
           (write_node_data C E batch st (l₁ ++ l₂)).2.node_order) ∧
       ((write_node_data C E batch st (l₁ ++ n :: l₂)).1 = true →
         n.node_label ∈
           (get_duplicate_nodes (write_node_data C E batch st (l₁ ++ n :: l₂)).2).1 ∧
         n.node_id ∈
           (get_duplicate_nodes (write_node_data C E batch st (l₁ ++ n :: l₂)).2).2)) ∧
    (∀ (C : WriterConfig) (E : SchemaEnv) (batch : Nat) (st : BatchWriterState)
       (l₁ l₂ : List BioCypherEdge) (e : BioCypherEdge),
       (edgeKey e ∈ st.seen_edge_ids ∨ ∃ m ∈ l₁, edgeKey m = edgeKey e) →
       ((write_edge_data C E batch st (l₁ ++ e :: l₂)).1 =
           (write_edge_data C E batch st (l₁ ++ l₂)).1 ∧
         (write_edge_data C E batch st (l₁ ++ e :: l₂)).2.files =
           (write_edge_data C E batch st (l₁ ++ l₂)).2.files ∧
         (write_edge_data C E batch st (l₁ ++ e :: l₂)).2.edge_part_index =
           (write_edge_data C E batch st (l₁ ++ l₂)).2.edge_part_index ∧
         (write_edge_data C E batch st (l₁ ++ e :: l₂)).2.edge_order =
           (write_edge_data C E batch st (l₁ ++ l₂)).2.edge_order) ∧
       ((write_edge_data C E batch st (l₁ ++ e :: l₂)).1 = true →
         e.input_relationship_label ∈
           (get_duplicate_edges (write_edge_data C E batch st (l₁ ++ e :: l₂)).2).1 ∧
         e.source_id ++ "_" ++ e.target_id ∈
           (get_duplicate_edges (write_edge_data C E batch st (l₁ ++ e :: l₂)).2).2)) ∧
    ((write_nodes testConfig testSchemaEnv 100 initialState
        [proteinNode "p1", proteinNode "p1"]).1 = true ∧
      alookup (write_nodes testConfig testSchemaEnv 100 initialState
          [proteinNode "p1", proteinNode "p1"]).2.files (FileKey.part "Protein" 0) =
        some "p1;\"StringProperty1\";4.0;9606;\"gene1|gene2\";\"p1\";\"id\";Protein\n" ∧
      (get_duplicate_nodes (write_nodes testConfig testSchemaEnv 100 initialState
          [proteinNode "p1", proteinNode "p1"]).2).1 = ["protein"] ∧
      (get_duplicate_nodes (write_nodes testConfig testSchemaEnv 100 initialState
          [proteinNode "p1", proteinNode "p1"]).2).2 = ["p1"]) ∧
    ((write_edge_data testConfig testSchemaEnv 100 initialState
        [pdEdge "p1" "p2", pdEdge "p1" "p3", pdEdge "p1" "p2"]).1 = true ∧
      (get_duplicate_edges (write_edge_data testConfig testSchemaEnv 100 initialState
          [pdEdge "p1" "p2", pdEdge "p1" "p3", pdEdge "p1" "p2"]).2).1 =
        ["gene_PERTURBED_IN_DISEASE_disease"] ∧
      (get_duplicate_edges (write_edge_data testConfig testSchemaEnv 100 initialState
          [pdEdge "p1" "p2", pdEdge "p1" "p3", pdEdge "p1" "p2"]).2).2 = ["p1_p2"]) := by
  refine ⟨?_, ?_, ?_, ?_⟩
  · intro C E batch st l₁ l₂ n hseen
    have h := @nodeGo_dup_skip C E batch l₁ st [] n l₂ hseen
    exact ⟨⟨h.1, h.2.1, h.2.2.1, h.2.2.2.2.1⟩,
      fun ht => @nodeGo_dup_reported C E batch l₁ st [] n l₂ hseen ht⟩
  · intro C E batch st l₁ l₂ e hseen
    have h := @edgeGo_dup_skip C E batch l₁ st [] e l₂ hseen
    exact ⟨⟨h.1, h.2.1, h.2.2.2.1, h.2.2.2.2.2.1⟩,
      fun ht => @edgeGo_dup_reported C E batch l₁ st [] e l₂ hseen ht⟩
  · exact ⟨by decide, by decide, by decide, by decide⟩
  · exact ⟨by decide, by decide, by decide⟩

/-- Closed instance of C2: in the two-identical-proteins stream of
`test_duplicate_id` the second occurrence satisfies the duplicate
hypothesis, leaves the files equal to those of the single-protein stream,
and is reported by `get_duplicate_nodes`. -/
theorem c2_duplicate_suppression_witness :
    proteinNode "p1" ∈ [proteinNode "p1"] ∧
    (write_node_data testConfig testSchemaEnv 100 initialState
        ([proteinNode "p1"] ++ proteinNode "p1" :: [])).2.files =
      (write_node_data testConfig testSchemaEnv 100 initialState
        ([proteinNode "p1"] ++ [])).2.files ∧
    "protein" ∈ (get_duplicate_nodes (write_node_data testConfig testSchemaEnv 100
        initialState ([proteinNode "p1"] ++ proteinNode "p1" :: [])).2).1 := by
  refine ⟨List.mem_cons_self _ _, ?_, ?_⟩
  · exact (c2_duplicate_suppression.1 testConfig testSchemaEnv 100 initialState
      [proteinNode "p1"] [] (proteinNode "p1")
      (Or.inr ⟨proteinNode "p1", List.mem_cons_self _ _, rfl⟩)).1.2.1
  · exact ((c2_duplicate_suppression.1 testConfig testSchemaEnv 100 initialState
      [proteinNode "p1"] [] (proteinNode "p1")
      (Or.inr ⟨proteinNode "p1", List.mem_cons_self _ _, rfl⟩)).2 (by decide)).1

/-! ## Import-call support lemmas (claim C5) -/

theorem join_eq_foldl (l : List String) :
    String.join l = List.foldl (fun r s => r ++ s) "" l := rfl

theorem foldl_append_shift :
    ∀ (l : List String) (a b : String),
      a ++ List.foldl (fun r s => r ++ s) b l =
        List.foldl (fun r s => r ++ s) (a ++ b) l := by
  intro l
  induction l with
  | nil => intro a b; rfl
  | cons x r ih =>
    intro a b
    simp only [List.foldl_cons]
    rw [ih a (b ++ x), String.append_assoc]

theorem foldl_append_trailing :
    ∀ (l : List String) (acc : String),
      (∀ x ∈ l, ∃ t, x = t ++ " ") → (∃ t, acc = t ++ " ") →
      ∃ t, List.foldl (fun r s => r ++ s) acc l = t ++ " " := by
  intro l
  induction l with
  | nil => intro acc _ hacc; exact hacc
  | cons x r ih =>
    intro acc hl hacc
    simp only [List.foldl_cons]
    refine ih (acc ++ x) (fun y hy => hl y (List.mem_cons_of_mem _ hy)) ?_
    obtain ⟨t, ht⟩ := hl x (List.mem_cons_self _ _)
    exact ⟨acc ++ t, by rw [ht, ← String.append_assoc]⟩

theorem trailing_of_append (X Y t : String) (h : Y = t ++ " ") :
    ∃ u, X ++ Y = u ++ " " :=
  ⟨X ++ t, by rw [h, ← String.append_assoc]⟩

theorem append_join_trailing (p : String) (l : List String)
    (hp : ∃ t, p = t ++ " ") (hl : ∀ x ∈ l, ∃ t, x = t ++ " ") :
    ∃ t, p ++ String.join l = t ++ " " := by
  rw [join_eq_foldl, foldl_append_shift l p "", String.append_empty]
  exact foldl_append_trailing l p hl hp

theorem importCallHead_trailing (C : WriterConfig) :
    ∃ u, importCallHead C = u ++ " " :=
  trailing_of_append _ _ "\" --force=true" (by decide)

theorem nodesClause_trailing (C : WriterConfig) (s : String) :
    ∃ u, nodesClause C s = u ++ " " :=
  trailing_of_append _ _ "-part.*\"" (by decide)

theorem relationshipsClause_trailing (C : WriterConfig) (s : String) :
    ∃ u, relationshipsClause C s = u ++ " " :=
  trailing_of_append _ _ "-part.*\"" (by decide)

theorem get_import_call_trailing (C : WriterConfig) (st : BatchWriterState) :
    ∃ t, get_import_call C st = t ++ " " := by
  unfold get_import_call
  refine append_join_trailing _ _ ?_ ?_
  · refine append_join_trailing _ _ (importCallHead_trailing C) ?_
    intro x hx
    obtain ⟨s, _, he⟩ := List.mem_map.mp hx
    rw [← he]
    exact nodesClause_trailing C s
  · intro x hx
    obtain ⟨s, _, he⟩ := List.mem_map.mp hx
    rw [← he]
    exact relationshipsClause_trailing C s

theorem mem_insertNew (l : List String) (s x : String) (h : x ∈ insertNew l s) :
    x ∈ l ∨ x = s := by
  unfold insertNew at h
  by_cases hs : s ∈ l
  · rw [if_pos hs] at h
    exact Or.inl h
  · rw [if_neg hs] at h
    rcases List.mem_append.mp h with h1 | h1
    · exact Or.inl h1
    · exact Or.inr (List.mem_singleton.mp h1)

theorem insertNew_nodup {l : List String} (h : l.Nodup) (s : String) :
    (insertNew l s).Nodup := by
  unfold insertNew
  by_cases hs : s ∈ l
  · rw [if_pos hs]
    exact h
  · rw [if_neg hs]
    refine List.Nodup.append h (List.nodup_singleton s) ?_
    intro a ha hb
    rw [List.mem_singleton] at hb
    exact hs (hb ▸ ha)

theorem length_le_foldl_append :
    ∀ (l : List String) (acc : String),
      acc.length ≤ (List.foldl (fun r s => r ++ s) acc l).length := by
  intro l
  induction l with
  | nil => intro acc; exact le_refl _
  | cons x r ih =>
    intro acc
    simp only [List.foldl_cons]
    calc acc.length ≤ (acc ++ x).length := by rw [String.length_append]; omega
      _ ≤ _ := ih (acc ++ x)

theorem join_cons_ne_empty (x : String) (rest : List String) (hx : 0 < x.length) :
    ¬ String.join (x :: rest) = "" := by
  intro h
  have h1 : (String.join (x :: rest)).length = 0 := by rw [h]; rfl
  have h2 : ("" ++ x).length ≤ (String.join (x :: rest)).length := by
    rw [join_eq_foldl]
    simp only [List.foldl_cons]
    exact length_le_foldl_append rest ("" ++ x)
  rw [String.length_append] at h2
  have h3 : ("" : String).length = 0 := rfl
  omega

theorem nodeRow_length_pos (C : WriterConfig) (E : SchemaEnv)
    (ref : List (String × PKind)) (n : BioCypherNode) :
    0 < (nodeRow C E ref n).length := by
  unfold nodeRow
  rw [String.length_append]
  have h : ("\n" : String).length = 1 := rfl
  omega

theorem edgeRow_length_pos (C : WriterConfig)
    (ref : List (String × PKind)) (e : BioCypherEdge) :
    0 < (edgeRow C ref e).length := by
  unfold edgeRow
  rw [String.length_append]
  have h : ("\n" : String).length = 1 := rfl
  omega

/-- The bucket-order bookkeeping invariant behind the import call: every
stem listed in `node_order` / `edge_order` has at least one part file, every
written part file is nonempty (at least one row), every part file's stem is
listed, and no stem is listed twice. -/
def OrderSound (st : BatchWriterState) : Prop :=
  (∀ s ∈ st.node_order, ∃ i, (alookup st.files (FileKey.part s i)).isSome) ∧
  (∀ s ∈ st.edge_order, ∃ i, (alookup st.files (FileKey.part s i)).isSome) ∧
  (∀ s i content, alookup st.files (FileKey.part s i) = some content → ¬ content = "") ∧
  (∀ s i, (alookup st.files (FileKey.part s i)).isSome →
    s ∈ st.node_order ∨ s ∈ st.edge_order) ∧
  st.node_order.Nodup ∧ st.edge_order.Nodup

theorem orderSound_initial : OrderSound initialState := by
  refine ⟨?_, ?_, ?_, ?_, List.nodup_nil, List.nodup_nil⟩
  · intro s hs
    exact absurd hs (List.not_mem_nil s)
  · intro s hs
    exact absurd hs (List.not_mem_nil s)
  · intro s i content h
    exact absurd h (by simp [initialState, alookup])
  · intro s i h
    simp [initialState, alookup] at h

theorem flushNodeBin_orderSound {C : WriterConfig} {E : SchemaEnv}
    {st st' : BatchWriterState} {b : NodeBin}
    (hf : flushNodeBin C E st b = some st') (h : OrderSound st) : OrderSound st' := by
  unfold flushNodeBin at hf
  by_cases hb : b.buf = []
  · rw [if_pos hb] at hf
    cases hf
    exact h
  · rw [if_neg hb] at hf
    by_cases hall : b.buf.all (nodeConforms C b.refProps) = true
    · rw [if_pos hall] at hf
      simp only [Option.some.injEq] at hf
      subst hf
      obtain ⟨hN, hE, hC, hD, hnd, hed⟩ := h
      have hw := writeHeaderIfAbsent_frame st b.stem (nodeHeaderLine C b.refProps)
      have hwo : (writeHeaderIfAbsent st b.stem
          (nodeHeaderLine C b.refProps)).node_order = st.node_order :=
        hw.2.2.2.2.2.2.2.2.2
      have hwe : (writeHeaderIfAbsent st b.stem
          (nodeHeaderLine C b.refProps)).edge_order = st.edge_order :=
        hw.2.2.2.2.2.2.2.1
      refine ⟨?_, ?_, ?_, ?_, ?_, ?_⟩
      · intro s hs
        dsimp only at hs ⊢
        rcases mem_insertNew _ _ _ (hwo ▸ hs) with hs1 | hs1
        · obtain ⟨i, hi⟩ := hN s hs1
          exact ⟨i, alookup_aset_isSome _ _ _ _ (writeHeaderIfAbsent_files_mono hi)⟩
        · subst hs1
          refine ⟨(alookup (writeHeaderIfAbsent st b.stem
              (nodeHeaderLine C b.refProps)).node_part_index b.stem).getD 0, ?_⟩
          rw [alookup_aset_self]
          rfl
      · intro s hs
        dsimp only at hs ⊢
        rw [hwe] at hs
        obtain ⟨i, hi⟩ := hE s hs
        exact ⟨i, alookup_aset_isSome _ _ _ _ (writeHeaderIfAbsent_files_mono hi)⟩
      · intro s i content hlook
        dsimp only at hlook
        by_cases hkey : FileKey.part s i = FileKey.part b.stem
            ((alookup (writeHeaderIfAbsent st b.stem
              (nodeHeaderLine C b.refProps)).node_part_index b.stem).getD 0)
        · rw [hkey, alookup_aset_self] at hlook
          cases hbuf : b.buf with
          | nil => exact absurd hbuf hb
          | cons hd tl =>
            have hcontent : content = String.join (b.buf.map (nodeRow C E b.refProps)) := by
              cases hlook
              rfl
            rw [hcontent, hbuf, List.map_cons]
            exact join_cons_ne_empty _ _ (nodeRow_length_pos C E b.refProps hd)
        · rw [alookup_aset_ne _ _ _ _ hkey, writeHeaderIfAbsent_part_lookup] at hlook
          exact hC s i content hlook
      · intro s i hsome
        dsimp only at hsome ⊢
        by_cases hkey : FileKey.part s i = FileKey.part b.stem
            ((alookup (writeHeaderIfAbsent st b.stem
              (nodeHeaderLine C b.refProps)).node_part_index b.stem).getD 0)
        · simp only [FileKey.part.injEq] at hkey
          obtain ⟨hseq, hieq⟩ := hkey
          subst hseq
          exact Or.inl (hwo ▸ mem_insertNew_self _ _)
        · rw [alookup_aset_ne _ _ _ _ hkey, writeHeaderIfAbsent_part_lookup] at hsome
          rcases hD s i hsome with h1 | h1
          · exact Or.inl (hwo ▸ mem_insertNew_of_mem _ _ _ h1)
          · exact Or.inr (hwe ▸ h1)
      · dsimp only
        rw [hwo]
        exact insertNew_nodup hnd b.stem
      · dsimp only
        rw [hwe]
        exact hed
    · rw [if_neg hall] at hf
      simp at hf

theorem nodeFinal_orderSound {C : WriterConfig} {E : SchemaEnv} :
    ∀ (bins : List NodeBin) (st : BatchWriterState), OrderSound st →
      OrderSound (nodeFinal C E st bins).2 := by
  intro bins
  induction bins with
  | nil => intro st h; exact h
  | cons b r ih =>
    intro st h
    unfold nodeFinal
    cases hf : flushNodeBin C E st b with
    | none => exact h
    | some st1 => exact ih st1 (flushNodeBin_orderSound hf h)

theorem nodeGo_orderSound {C : WriterConfig} {E : SchemaEnv} {batch : Nat} :
    ∀ (nodes : List BioCypherNode) (st : BatchWriterState) (bins : List NodeBin),
      OrderSound st → OrderSound (nodeGo C E batch st bins nodes).2 := by
  intro nodes
  induction nodes with
  | nil => intro st bins h; exact nodeFinal_orderSound bins st h
  | cons n0 rest ih =>
    intro st bins h
    simp only [nodeGo]
    by_cases hdup : (n0.node_label, n0.node_id) ∈ st.seen_node_ids
    · rw [if_pos hdup]
      exact ih _ _ h
    · rw [if_neg hdup]
      by_cases hlen : (targetBin E bins n0).buf.length = batch
      · rw [if_pos hlen]
        cases hf : flushNodeBin C E (markNodeSeen st n0) (targetBin E bins n0) with
        | none => exact h
        | some st2 => exact ih _ _ (flushNodeBin_orderSound hf h)
      · rw [if_neg hlen]
        exact ih _ _ h

theorem flushEdgeBin_orderSound {C : WriterConfig}
    {st st' : BatchWriterState} {b : EdgeBin}
    (hf : flushEdgeBin C st b = some st') (h : OrderSound st) : OrderSound st' := by
  unfold flushEdgeBin at hf
  by_cases hb : b.buf = []
  · rw [if_pos hb] at hf
    cases hf
    exact h
  · rw [if_neg hb] at hf
    by_cases hall : b.buf.all (edgeConforms b.refProps) = true
    · rw [if_pos hall] at hf
      simp only [Option.some.injEq] at hf
      subst hf
      obtain ⟨hN, hE, hC, hD, hnd, hed⟩ := h
      have hw := writeHeaderIfAbsent_frame st b.stem (edgeHeaderLine C b.refProps)
      have hwo : (writeHeaderIfAbsent st b.stem
          (edgeHeaderLine C b.refProps)).node_order = st.node_order :=
        hw.2.2.2.2.2.2.2.2.2
      have hwe : (writeHeaderIfAbsent st b.stem
          (edgeHeaderLine C b.refProps)).edge_order = st.edge_order :=
        hw.2.2.2.2.2.2.2.1
      refine ⟨?_, ?_, ?_, ?_, ?_, ?_⟩
      · intro s hs
        dsimp only at hs ⊢
        rw [hwo] at hs
        obtain ⟨i, hi⟩ := hN s hs
        exact ⟨i, alookup_aset_isSome _ _ _ _ (writeHeaderIfAbsent_files_mono hi)⟩
      · intro s hs
        dsimp only at hs ⊢
        rcases mem_insertNew _ _ _ (hwe ▸ hs) with hs1 | hs1
        · obtain ⟨i, hi⟩ := hE s hs1
          exact ⟨i, alookup_aset_isSome _ _ _ _ (writeHeaderIfAbsent_files_mono hi)⟩
        · subst hs1
          refine ⟨(alookup (writeHeaderIfAbsent st b.stem
              (edgeHeaderLine C b.refProps)).edge_part_index b.stem).getD 0, ?_⟩
          rw [alookup_aset_self]
          rfl
      · intro s i content hlook
        dsimp only at hlook
        by_cases hkey : FileKey.part s i = FileKey.part b.stem
            ((alookup (writeHeaderIfAbsent st b.stem
              (edgeHeaderLine C b.refProps)).edge_part_index b.stem).getD 0)
        · rw [hkey, alookup_aset_self] at hlook
          cases hbuf : b.buf with
          | nil => exact absurd hbuf hb
          | cons hd tl =>
            have hcontent : content = String.join (b.buf.map (edgeRow C b.refProps)) := by
              cases hlook
              rfl
            rw [hcontent, hbuf, List.map_cons]
            exact join_cons_ne_empty _ _ (edgeRow_length_pos C b.refProps hd)
        · rw [alookup_aset_ne _ _ _ _ hkey, writeHeaderIfAbsent_part_lookup] at hlook
          exact hC s i content hlook
      · intro s i hsome
        dsimp only at hsome ⊢
        by_cases hkey : FileKey.part s i = FileKey.part b.stem
            ((alookup (writeHeaderIfAbsent st b.stem
              (edgeHeaderLine C b.refProps)).edge_part_index b.stem).getD 0)
        · simp only [FileKey.part.injEq] at hkey
          obtain ⟨hseq, hieq⟩ := hkey
          subst hseq
          exact Or.inr (hwe ▸ mem_insertNew_self _ _)
        · rw [alookup_aset_ne _ _ _ _ hkey, writeHeaderIfAbsent_part_lookup] at hsome
          rcases hD s i hsome with h1 | h1
          · exact Or.inl (hwo ▸ h1)
          · exact Or.inr (hwe ▸ mem_insertNew_of_mem _ _ _ h1)
      · dsimp only
        rw [hwo]
        exact hnd
      · dsimp only
        rw [hwe]
        exact insertNew_nodup hed b.stem
    · rw [if_neg hall] at hf
      simp at hf

theorem edgeFinal_orderSound {C : WriterConfig} :
    ∀ (bins : List EdgeBin) (st : BatchWriterState), OrderSound st →
      OrderSound (edgeFinal C st bins).2 := by
  intro bins
  induction bins with
  | nil => intro st h; exact h
  | cons b r ih =>
    intro st h
    unfold edgeFinal
    cases hf : flushEdgeBin C st b with
    | none => exact h
    | some st1 => exact ih st1 (flushEdgeBin_orderSound hf h)

theorem edgeGo_orderSound {C : WriterConfig} {E : SchemaEnv} {batch : Nat} :
    ∀ (edges : List BioCypherEdge) (st : BatchWriterState) (bins : List EdgeBin),
      OrderSound st → OrderSound (edgeGo C E batch st bins edges).2 := by
  intro edges
  induction edges with
  | nil => intro st bins h; exact edgeFinal_orderSound bins st h
  | cons e0 rest ih =>
    intro st bins h
    simp only [edgeGo]
    by_cases hdup : edgeKey e0 ∈ st.seen_edge_ids
    · rw [if_pos hdup]
      exact ih _ _ h
    · rw [if_neg hdup]
      by_cases hlen : (targetEBin E bins e0).buf.length = batch
      · rw [if_pos hlen]
        cases hf : flushEdgeBin C (markEdgeSeen st e0) (targetEBin E bins e0) with
        | none => exact h
        | some st2 => exact ih _ _ (flushEdgeBin_orderSound hf h)
      · rw [if_neg hlen]
        exact ih _ _ h

/-- C5: `get_import_call` / `write_import_call` produce a single command
line: the loader invocation with its fixed database, delimiter,
array-delimiter, quote and force-overwrite flags, followed by one
`--nodes="<dir>/<Type>-header.csv,<dir>/<Type>-part.*"` clause per listed
node bucket in first-write order, then one `--relationships` clause per
listed edge bucket likewise ordered, with a trailing space after the final
clause; `write_import_call` stores that line in the script file; the
`OrderSound` invariant - every listed bucket has at least one nonempty part
file, every part file's bucket is listed, and no bucket is listed twice -
holds initially and is preserved by the write operations, so the clause
lists range exactly over the buckets that received at least one row; and
the `test_create_import_call` scenario yields exactly the expected command
line. -/
theorem c5_import_call :
    (∀ (C : WriterConfig) (st : BatchWriterState),
       get_import_call C st =
         importCallHead C ++ String.join (st.node_order.map (nodesClause C))
           ++ String.join (st.edge_order.map (relationshipsClause C))) ∧
    (∀ (C : WriterConfig) (s : String),
       nodesClause C s = "--nodes=\"" ++ C.dirname ++ "/" ++ s ++ "-header.csv,"
         ++ C.dirname ++ "/" ++ s ++ "-part.*\" " ∧
       relationshipsClause C s = "--relationships=\"" ++ C.dirname ++ "/" ++ s
         ++ "-header.csv," ++ C.dirname ++ "/" ++ s ++ "-part.*\" ") ∧
    (∀ (C : WriterConfig) (st : BatchWriterState),
       ∃ t, get_import_call C st = t ++ " ") ∧
    (∀ (C : WriterConfig) (st : BatchWriterState),
       alookup (write_import_call C st).files FileKey.importScript =
         some (get_import_call C st)) ∧
    (OrderSound initialState ∧
      (∀ (C : WriterConfig) (E : SchemaEnv) (batch : Nat) (st : BatchWriterState)
         (nodes : List BioCypherNode), OrderSound st →
         OrderSound (write_node_data C E batch st nodes).2) ∧
      (∀ (C : WriterConfig) (E : SchemaEnv) (batch : Nat) (st : BatchWriterState)
         (edges : List BioCypherEdge), OrderSound st →
         OrderSound (write_edge_data C E batch st edges).2)) ∧
    get_import_call testConfig
      (write_edge_data testConfig testSchemaEnv 100
        (write_nodes testConfig testSchemaEnv 100 initialState
          [proteinNode "p1", mirnaNode "m1"]).2
        [pdEdge "p1" "p2"]).2 =
      "bin/neo4j-admin import --database=neo4j --delimiter=\";\" --array-delimiter=\"|\" --quote=\"\"\" --force=true --nodes=\"/out/Protein-header.csv,/out/Protein-part.*\" --nodes=\"/out/MicroRNA-header.csv,/out/MicroRNA-part.*\" --relationships=\"/out/GeneToDiseaseAssociation-header.csv,/out/GeneToDiseaseAssociation-part.*\" " := by
  refine ⟨fun C st => rfl, fun C s => ⟨rfl, rfl⟩, get_import_call_trailing, ?_,
    ⟨orderSound_initial, ?_, ?_⟩, by decide⟩
  · intro C st
    exact alookup_aset_self _ _ _
  · intro C E batch st nodes h
    exact nodeGo_orderSound nodes st [] h
  · intro C E batch st edges h
    exact edgeGo_orderSound edges st [] h

/-- Closed instance of C5: the bucket-order invariant holds for the fresh
writer state and is carried through a concrete node write call. -/
theorem c5_import_call_witness :
    OrderSound initialState ∧
    OrderSound (write_node_data testConfig testSchemaEnv 100 initialState
      [proteinNode "p1"]).2 :=
  ⟨c5_import_call.2.2.2.2.1.1,
    c5_import_call.2.2.2.2.1.2.1 testConfig testSchemaEnv 100 initialState
      [proteinNode "p1"] c5_import_call.2.2.2.2.1.1⟩

/-- A reified `post translational interaction` node as built by
`_get_rel_as_nodes` in the tests. -/
def ptiNode (i : String) : BioCypherNode :=
  { node_id := i
    node_label := "post translational interaction"
    properties := [("level", PropValue.vint 4)] }

/-- The `IS_SOURCE_OF` edge of a reified relationship triple. -/
def srcEdge (i p : String) : BioCypherEdge :=
  { source_id := i
    target_id := p
    graph_db_relationship_label := "IS_SOURCE_OF"
    input_relationship_label := i ++ "_IS_SOURCE_OF_" ++ p }

/-- The `IS_TARGET_OF` edge of a reified relationship triple. -/
def tgtEdge (i p : String) : BioCypherEdge :=
  { source_id := i
    target_id := p
    graph_db_relationship_label := "IS_TARGET_OF"
    input_relationship_label := i ++ "_IS_TARGET_OF_" ++ p }

/-- The two reified-relationship triples of the concrete C6 scenario. -/
def relAsNodeTrips : List EdgeStreamItem :=
  [EdgeStreamItem.relAsNode ⟨ptiNode "i1", srcEdge "i1" "p1", tgtEdge "i1" "p2"⟩,
   EdgeStreamItem.relAsNode ⟨ptiNode "i2", srcEdge "i2" "p3", tgtEdge "i2" "p4"⟩]

/-- C6: `write_edges` splits every relationship-as-node triple in place into
its reified node and its two connecting edges, runs one node write over all
reified nodes and one edge write over all edges - each with its own
duplicate suppression and conformance validation - and succeeds exactly
when both do; in the concrete `test_BioCypherRelAsNode_implementation`
scenario the two triples produce records in three distinct buckets (the
reified node type's `PostTranslationalInteraction`, `IS_SOURCE_OF` and
`IS_TARGET_OF`), and the generated import command contains one `--nodes`
clause and two `--relationships` clauses for exactly these buckets. -/
theorem c6_rel_as_node :
    (∀ (t : BioCypherRelAsNode) (rest : List EdgeStreamItem),
       splitEdgeStream (EdgeStreamItem.relAsNode t :: rest) =
         (t.node :: (splitEdgeStream rest).1,
          t.source_edge :: t.target_edge :: (splitEdgeStream rest).2)) ∧
    (∀ (e : BioCypherEdge) (rest : List EdgeStreamItem),
       splitEdgeStream (EdgeStreamItem.edge e :: rest) =
         ((splitEdgeStream rest).1, e :: (splitEdgeStream rest).2)) ∧
    (∀ (C : WriterConfig) (E : SchemaEnv) (batch : Nat) (st : BatchWriterState)
       (items : List EdgeStreamItem),
       write_edges C E batch st items =
         ((write_node_data C E batch st (splitEdgeStream items).1).1 &&
           (write_edge_data C E batch
             (write_node_data C E batch st (splitEdgeStream items).1).2
             (splitEdgeStream items).2).1,
          (write_edge_data C E batch
            (write_node_data C E batch st (splitEdgeStream items).1).2
            (splitEdgeStream items).2).2)) ∧
    ((write_edges testConfig testSchemaEnv 100 initialState relAsNodeTrips).1 = true ∧
      alookup (write_edges testConfig testSchemaEnv 100 initialState relAsNodeTrips).2.files
          (FileKey.part "PostTranslationalInteraction" 0) =
        some "i1;4;\"i1\";\"id\";post translational interaction\ni2;4;\"i2\";\"id\";post translational interaction\n" ∧
      alookup (write_edges testConfig testSchemaEnv 100 initialState relAsNodeTrips).2.files
          (FileKey.part "IS_SOURCE_OF" 0) =
        some "i1;p1;IS_SOURCE_OF\ni2;p3;IS_SOURCE_OF\n" ∧
      alookup (write_edges testConfig testSchemaEnv 100 initialState relAsNodeTrips).2.files
          (FileKey.part "IS_TARGET_OF" 0) =
        some "i1;p2;IS_TARGET_OF\ni2;p4;IS_TARGET_OF\n" ∧
      (write_edges testConfig testSchemaEnv 100 initialState relAsNodeTrips).2.node_order =
        ["PostTranslationalInteraction"] ∧
      (write_edges testConfig testSchemaEnv 100 initialState relAsNodeTrips).2.edge_order =
        ["IS_SOURCE_OF", "IS_TARGET_OF"] ∧
      get_import_call testConfig
          (write_edges testConfig testSchemaEnv 100 initialState relAsNodeTrips).2 =
        "bin/neo4j-admin import --database=neo4j --delimiter=\";\" --array-delimiter=\"|\" --quote=\"\"\" --force=true --nodes=\"/out/PostTranslationalInteraction-header.csv,/out/PostTranslationalInteraction-part.*\" --relationships=\"/out/IS_SOURCE_OF-header.csv,/out/IS_SOURCE_OF-part.*\" --relationships=\"/out/IS_TARGET_OF-header.csv,/out/IS_TARGET_OF-part.*\" ") := by
  refine ⟨?_, ?_, ?_, by decide, by decide, by decide, by decide, by decide, by decide,
    by decide⟩
  · intro t rest
    rfl
  · intro e rest
    rfl
  · intro C E batch st items
    rfl
